import Mathlib

/-!
# Mini-C-Compiler: a shallow embedding of `mini_compiler.c`

The C program keeps its lexer, parser and interpreter state in global variables and
aborts with `exit(1)` on errors.  Here every function takes the part of the global state
it reads and returns the part it writes, and aborting is a result of its own.

* `Result.ret a`   : the C function returned normally with `a`;
* `Result.fail e`  : the process stopped, either through `exit(1)` after an error message
                     or through undefined behaviour of the C program;
* `Result.div`     : the fuel of a recursive model ran out (the C function had not returned yet).
-/

namespace MiniC

/-! ## Results -/

/-- Outcome of a C function: normal return, abort of the process, or fuel exhausted. -/
inductive Result (ε α : Type) where
  | ret (a : α)
  | fail (e : ε)
  | div
  deriving DecidableEq, Repr

/-- Sequencing of two C computations: the second runs only after a normal return. -/
def Result.bind {ε α β : Type} (x : Result ε α) (f : α → Result ε β) : Result ε β :=
  match x with
  | .ret a => f a
  | .fail e => .fail e
  | .div => .div

instance {ε : Type} : Monad (Result ε) where
  pure := Result.ret
  bind := Result.bind

/-- Change of the abort payload. -/
def Result.mapFail {ε δ α : Type} (g : ε → δ) : Result ε α → Result δ α
  | .ret a => .ret a
  | .fail e => .fail (g e)
  | .div => .div

/-! ## Tokens -/

/-- The enum `TokenType`. -/
inductive TokenType where
  | TOKEN_NUMBER
  | TOKEN_IDENTIFIER
  | TOKEN_PLUS
  | TOKEN_MINUS
  | TOKEN_MULTIPLY
  | TOKEN_DIVIDE
  | TOKEN_ASSIGN
  | TOKEN_SEMICOLON
  | TOKEN_LPAREN
  | TOKEN_RPAREN
  | TOKEN_LBRACE
  | TOKEN_RBRACE
  | TOKEN_IF
  | TOKEN_ELSE
  | TOKEN_WHILE
  | TOKEN_PRINT
  | TOKEN_INT
  | TOKEN_EQUALS
  | TOKEN_LESS
  | TOKEN_GREATER
  | TOKEN_EOF
  | TOKEN_NEWLINE
  deriving DecidableEq, Repr

open TokenType

/-- The struct `Token`; `value` is the content of the buffer `char value[100]`. -/
structure Token where
  type : TokenType
  value : String
  line : Nat
  deriving DecidableEq, Repr

/-- The ways the process stops early.  The first four are the `printf` + `exit(1)` places of
the program, the last one is undefined behaviour of the C program (a write past a buffer,
a null dereference, a signed overflow, a division by zero). -/
inductive Fault where
  /-- From `get_next_token`, `default:` case: "Unknown character '%c' at line %d". -/
  | unknown_character (ch : Char) (line : Nat)
  /-- From `expect_token`: "Expected token type %d, got %d at line %d". -/
  | expected_token (expected got : TokenType) (line : Nat)
  /-- From `error(message)`: "%s at line %d" with the lexer's `current_line`. -/
  | error (message : String) (line : Nat)
  /-- From `evaluate_expression`, `NODE_IDENTIFIER` case: "Undefined variable '%s'". -/
  | undefined_variable (name : String)
  /-- No message: the C standard gives the program no meaning from here on. -/
  | undefined_behaviour
  deriving DecidableEq, Repr

/-- LexError of the specification: the message of the lexer. -/
def Fault.isLexError : Fault → Bool
  | .unknown_character _ _ => true
  | _ => false

/-- ParseError of the specification: a message of `expect_token` or of `error`. -/
def Fault.isParseError : Fault → Bool
  | .expected_token _ _ _ => true
  | .error _ _ => true
  | _ => false

/-- RuntimeError of the specification: a message of the interpreter. -/
def Fault.isRuntimeError : Fault → Bool
  | .undefined_variable _ => true
  | _ => false

/-! ## Character classes of `<ctype.h>` in the "C" locale -/

def isspace (c : Char) : Bool :=
  c = ' ' || c = '\t' || c = '\n' || c = Char.ofNat 11 || c = Char.ofNat 12 || c = '\r'

def isdigit (c : Char) : Bool :=
  decide ('0'.toNat ≤ c.toNat) && decide (c.toNat ≤ '9'.toNat)

def isalpha (c : Char) : Bool :=
  (decide ('a'.toNat ≤ c.toNat) && decide (c.toNat ≤ 'z'.toNat)) ||
  (decide ('A'.toNat ≤ c.toNat) && decide (c.toNat ≤ 'Z'.toNat))

def isalnum (c : Char) : Bool :=
  isalpha c || isdigit c

/-! ## Lexical analyzer -/

/-- The globals `source_code`, `current_pos`, `current_line`.  `source_code` holds the
characters of the C string before its terminating NUL. -/
structure Lexer where
  source_code : List Char
  current_pos : Nat
  current_line : Nat
  deriving DecidableEq, Repr

def lexer_init (code : List Char) : Lexer :=
  ⟨code, 0, 1⟩

/-- The loop `while (current_pos < strlen(source_code) && isspace(source_code[current_pos]))`
of `get_next_token`, run on the characters from `current_pos` on; returns the new
`current_pos` and `current_line`. -/
def skip_whitespace : List Char → Nat → Nat → Nat × Nat
  | [], pos, line => (pos, line)
  | c :: cs, pos, line =>
    if isspace c then
      skip_whitespace cs (pos + 1) (if c = '\n' then line + 1 else line)
    else (pos, line)

/-- Capacity of the buffers `char value[100]`. -/
def VALUE_SIZE : Nat := 100

/-- Keyword check of `get_next_token` (the `strcmp` chain). -/
def keyword_type (value : String) : TokenType :=
  if value = "if" then TOKEN_IF
  else if value = "else" then TOKEN_ELSE
  else if value = "while" then TOKEN_WHILE
  else if value = "print" then TOKEN_PRINT
  else if value = "int" then TOKEN_INT
  else TOKEN_IDENTIFIER

/-- The `switch (ch)` of `get_next_token`; `next` is the character after `ch`, if any.
Returns the token type, the lexeme and the number of further characters consumed. -/
def single_character_token (ch : Char) (next : Option Char) : Option (TokenType × String × Nat) :=
  if ch = '+' then some (TOKEN_PLUS, "+", 0)
  else if ch = '-' then some (TOKEN_MINUS, "-", 0)
  else if ch = '*' then some (TOKEN_MULTIPLY, "*", 0)
  else if ch = '/' then some (TOKEN_DIVIDE, "/", 0)
  else if ch = '=' then
    (if next = some '=' then some (TOKEN_EQUALS, "==", 1) else some (TOKEN_ASSIGN, "=", 0))
  else if ch = '<' then some (TOKEN_LESS, "<", 0)
  else if ch = '>' then some (TOKEN_GREATER, ">", 0)
  else if ch = ';' then some (TOKEN_SEMICOLON, ";", 0)
  else if ch = '(' then some (TOKEN_LPAREN, "(", 0)
  else if ch = ')' then some (TOKEN_RPAREN, ")", 0)
  else if ch = '\x7b' then some (TOKEN_LBRACE, "\x7b", 0)
  else if ch = '\x7d' then some (TOKEN_RBRACE, "\x7d", 0)
  else none

/-- The function `get_next_token`.  Characters outside ASCII are in no class of
`<ctype.h>` here.  The two copy loops write `token.value[i++]` for every character of the
run and then `token.value[i] = 0`; with a run of `VALUE_SIZE` or more characters the
write leaves the buffer, which is undefined behaviour. -/
def get_next_token (lx : Lexer) : Result Fault (Token × Lexer) :=
  let (pos, line) := skip_whitespace (lx.source_code.drop lx.current_pos) lx.current_pos lx.current_line
  match lx.source_code.drop pos with
  | [] => .ret (⟨TOKEN_EOF, "EOF", line⟩, ⟨lx.source_code, pos, line⟩)
  | c :: cs =>
    if isdigit c then
      let run := (c :: cs).takeWhile isdigit
      if VALUE_SIZE ≤ run.length then .fail .undefined_behaviour
      else .ret (⟨TOKEN_NUMBER, String.mk run, line⟩, ⟨lx.source_code, pos + run.length, line⟩)
    else if isalpha c || c = '_' then
      let run := (c :: cs).takeWhile (fun d => isalnum d || d = '_')
      if VALUE_SIZE ≤ run.length then .fail .undefined_behaviour
      else .ret (⟨keyword_type (String.mk run), String.mk run, line⟩,
                 ⟨lx.source_code, pos + run.length, line⟩)
    else
      match single_character_token c cs.head? with
      | some (ty, value, extra) => .ret (⟨ty, value, line⟩, ⟨lx.source_code, pos + 1 + extra, line⟩)
      | none => .fail (.unknown_character c line)

/-! ## Abstract syntax tree -/

/-- A value of type `ASTNode*`: the null pointer, or a node with the fields its `type` uses.
`value` is the content of the buffer `char value[100]`, `statements` the first
`statement_count` entries of the array `statements`. -/
inductive ASTNode where
  | NULL
  | NODE_NUMBER (value : String)
  | NODE_IDENTIFIER (value : String)
  | NODE_BINARY_OP (value : String) (left right : ASTNode)
  | NODE_ASSIGN (value : String) (right : ASTNode)
  | NODE_PRINT (left : ASTNode)
  | NODE_IF (condition body : ASTNode)
  | NODE_WHILE (condition body : ASTNode)
  | NODE_BLOCK (statements : List ASTNode)
  deriving Repr

open ASTNode

mutual

/-- Structural comparison of two trees. -/
def ASTNode.beq : ASTNode → ASTNode → Bool
  | .NULL, .NULL => true
  | .NODE_NUMBER v, .NODE_NUMBER w => decide (v = w)
  | .NODE_IDENTIFIER v, .NODE_IDENTIFIER w => decide (v = w)
  | .NODE_BINARY_OP v l r, .NODE_BINARY_OP w l2 r2 =>
    decide (v = w) && ASTNode.beq l l2 && ASTNode.beq r r2
  | .NODE_ASSIGN v r, .NODE_ASSIGN w r2 => decide (v = w) && ASTNode.beq r r2
  | .NODE_PRINT l, .NODE_PRINT l2 => ASTNode.beq l l2
  | .NODE_IF c b, .NODE_IF c2 b2 => ASTNode.beq c c2 && ASTNode.beq b b2
  | .NODE_WHILE c b, .NODE_WHILE c2 b2 => ASTNode.beq c c2 && ASTNode.beq b b2
  | .NODE_BLOCK s, .NODE_BLOCK t => ASTNode.beqList s t
  | _, _ => false

/-- Structural comparison of two statement sequences. -/
def ASTNode.beqList : List ASTNode → List ASTNode → Bool
  | [], [] => true
  | a :: s, b :: t => ASTNode.beq a b && ASTNode.beqList s t
  | _, _ => false

end

mutual

/-- The comparison `ASTNode.beq` only accepts equal trees. -/
theorem ASTNode.eq_of_beq : ∀ (a b : ASTNode), ASTNode.beq a b = true → a = b
  | .NULL, b, h => by cases b <;> simp [ASTNode.beq] at h ⊢
  | .NODE_NUMBER v, b, h => by cases b <;> simp [ASTNode.beq] at h ⊢; exact h
  | .NODE_IDENTIFIER v, b, h => by cases b <;> simp [ASTNode.beq] at h ⊢; exact h
  | .NODE_BINARY_OP v l r, b, h => by
    cases b with
    | NODE_BINARY_OP w l2 r2 =>
      simp [ASTNode.beq] at h
      rw [h.1.1, ASTNode.eq_of_beq l l2 h.1.2, ASTNode.eq_of_beq r r2 h.2]
    | _ => simp [ASTNode.beq] at h
  | .NODE_ASSIGN v r, b, h => by
    cases b with
    | NODE_ASSIGN w r2 =>
      simp [ASTNode.beq] at h
      rw [h.1, ASTNode.eq_of_beq r r2 h.2]
    | _ => simp [ASTNode.beq] at h
  | .NODE_PRINT l, b, h => by
    cases b with
    | NODE_PRINT l2 =>
      simp [ASTNode.beq] at h
      rw [ASTNode.eq_of_beq l l2 h]
    | _ => simp [ASTNode.beq] at h
  | .NODE_IF c d, b, h => by
    cases b with
    | NODE_IF c2 d2 =>
      simp [ASTNode.beq] at h
      rw [ASTNode.eq_of_beq c c2 h.1, ASTNode.eq_of_beq d d2 h.2]
    | _ => simp [ASTNode.beq] at h
  | .NODE_WHILE c d, b, h => by
    cases b with
    | NODE_WHILE c2 d2 =>
      simp [ASTNode.beq] at h
      rw [ASTNode.eq_of_beq c c2 h.1, ASTNode.eq_of_beq d d2 h.2]
    | _ => simp [ASTNode.beq] at h
  | .NODE_BLOCK s, b, h => by
    cases b with
    | NODE_BLOCK t =>
      simp [ASTNode.beq] at h
      rw [ASTNode.eq_of_beqList s t h]
    | _ => simp [ASTNode.beq] at h

/-- The comparison `ASTNode.beqList` only accepts equal sequences. -/
theorem ASTNode.eq_of_beqList : ∀ (s t : List ASTNode), ASTNode.beqList s t = true → s = t
  | [], t, h => by cases t <;> simp [ASTNode.beqList] at h ⊢
  | a :: s, t, h => by
    cases t with
    | nil => simp [ASTNode.beqList] at h
    | cons b t =>
      simp [ASTNode.beqList] at h
      rw [ASTNode.eq_of_beq a b h.1, ASTNode.eq_of_beqList s t h.2]

end

mutual

/-- The comparison `ASTNode.beq` accepts a tree compared with itself. -/
theorem ASTNode.beq_self : ∀ (a : ASTNode), ASTNode.beq a a = true
  | .NULL => rfl
  | .NODE_NUMBER v => by simp [ASTNode.beq]
  | .NODE_IDENTIFIER v => by simp [ASTNode.beq]
  | .NODE_BINARY_OP v l r => by simp [ASTNode.beq, ASTNode.beq_self l, ASTNode.beq_self r]
  | .NODE_ASSIGN v r => by simp [ASTNode.beq, ASTNode.beq_self r]
  | .NODE_PRINT l => by simp [ASTNode.beq, ASTNode.beq_self l]
  | .NODE_IF c d => by simp [ASTNode.beq, ASTNode.beq_self c, ASTNode.beq_self d]
  | .NODE_WHILE c d => by simp [ASTNode.beq, ASTNode.beq_self c, ASTNode.beq_self d]
  | .NODE_BLOCK s => by simp [ASTNode.beq, ASTNode.beqList_self s]

/-- The comparison `ASTNode.beqList` accepts a sequence compared with itself. -/
theorem ASTNode.beqList_self : ∀ (s : List ASTNode), ASTNode.beqList s s = true
  | [] => rfl
  | a :: s => by simp [ASTNode.beqList, ASTNode.beq_self a, ASTNode.beqList_self s]

end

instance : DecidableEq ASTNode := fun a b =>
  if h : ASTNode.beq a b = true then isTrue (ASTNode.eq_of_beq a b h)
  else isFalse (fun e => h (e ▸ ASTNode.beq_self a))

/-! ## Parser -/

/-- The lexer globals together with the global `current_token`. -/
structure Parser where
  lexer : Lexer
  current_token : Token
  deriving DecidableEq, Repr

/-- The statement `current_token = get_next_token();`. -/
def next_token (p : Parser) : Result Fault Parser :=
  (get_next_token p.lexer).bind fun r => .ret ⟨r.2, r.1⟩

/-- The function `parser_init`, after `lexer_init`. -/
def parser_init (lx : Lexer) : Result Fault Parser :=
  (get_next_token lx).bind fun r => .ret ⟨r.2, r.1⟩

def expect_token (expected : TokenType) (p : Parser) : Result Fault Parser :=
  if p.current_token.type ≠ expected then
    .fail (.expected_token expected p.current_token.type p.current_token.line)
  else next_token p

/-- Number of entries of the arrays `malloc(sizeof(ASTNode*) * 100)`. -/
def STATEMENTS_SIZE : Nat := 100

/-- Loop condition of `parse_expression`. -/
def is_expression_operator (t : TokenType) : Bool :=
  t = TOKEN_PLUS || t = TOKEN_MINUS || t = TOKEN_EQUALS || t = TOKEN_LESS || t = TOKEN_GREATER

/-- Loop condition of `parse_term`. -/
def is_term_operator (t : TokenType) : Bool :=
  t = TOKEN_MULTIPLY || t = TOKEN_DIVIDE

/-- The store `statements[statement_count++] = node` into an array of `STATEMENTS_SIZE`
entries holding `statements` so far: past the last entry it is undefined behaviour. -/
def store_statement (statements : List ASTNode) (node : ASTNode) : Result Fault (List ASTNode) :=
  if STATEMENTS_SIZE ≤ statements.length then .fail .undefined_behaviour
  else .ret (statements ++ [node])

mutual

/-- The function `parse_factor`. -/
def parse_factor : Nat → Parser → Result Fault (ASTNode × Parser)
  | 0, _ => .div
  | k + 1, p =>
    if p.current_token.type = TOKEN_NUMBER then
      (next_token p).bind fun p1 => .ret (NODE_NUMBER p.current_token.value, p1)
    else if p.current_token.type = TOKEN_IDENTIFIER then
      (next_token p).bind fun p1 => .ret (NODE_IDENTIFIER p.current_token.value, p1)
    else if p.current_token.type = TOKEN_LPAREN then
      (next_token p).bind fun p1 =>
      (parse_expression k p1).bind fun r =>
      (expect_token TOKEN_RPAREN r.2).bind fun p2 => .ret (r.1, p2)
    else .fail (.error "Unexpected token in expression" p.lexer.current_line)

/-- The function `parse_term`: a factor, then the `while` loop. -/
def parse_term : Nat → Parser → Result Fault (ASTNode × Parser)
  | 0, _ => .div
  | k + 1, p => (parse_factor k p).bind fun r => parse_term_loop k r.1 r.2

/-- The `while` loop of `parse_term`, with `node` the tree built so far. -/
def parse_term_loop : Nat → ASTNode → Parser → Result Fault (ASTNode × Parser)
  | 0, _, _ => .div
  | k + 1, node, p =>
    if is_term_operator p.current_token.type then
      (next_token p).bind fun p1 =>
      (parse_factor k p1).bind fun r =>
      parse_term_loop k (NODE_BINARY_OP p.current_token.value node r.1) r.2
    else .ret (node, p)

/-- The function `parse_expression`: a term, then the `while` loop. -/
def parse_expression : Nat → Parser → Result Fault (ASTNode × Parser)
  | 0, _ => .div
  | k + 1, p => (parse_term k p).bind fun r => parse_expression_loop k r.1 r.2

/-- The `while` loop of `parse_expression`, with `node` the tree built so far. -/
def parse_expression_loop : Nat → ASTNode → Parser → Result Fault (ASTNode × Parser)
  | 0, _, _ => .div
  | k + 1, node, p =>
    if is_expression_operator p.current_token.type then
      (next_token p).bind fun p1 =>
      (parse_term k p1).bind fun r =>
      parse_expression_loop k (NODE_BINARY_OP p.current_token.value node r.1) r.2
    else .ret (node, p)

end

/-- The part `IDENTIFIER = expression ;` shared by the first two branches of
`parse_statement`, entered with the identifier as current token. -/
def parse_assignment (k : Nat) (p : Parser) : Result Fault (ASTNode × Parser) :=
  (next_token p).bind fun p1 =>
  (expect_token TOKEN_ASSIGN p1).bind fun p2 =>
  (parse_expression k p2).bind fun r =>
  (expect_token TOKEN_SEMICOLON r.2).bind fun p3 =>
  .ret (NODE_ASSIGN p.current_token.value r.1, p3)

mutual

/-- The function `parse_statement`.  With a current token that starts no statement none of the five
branches is taken and the initial `node = NULL` is returned. -/
def parse_statement : Nat → Parser → Result Fault (ASTNode × Parser)
  | 0, _ => .div
  | k + 1, p =>
    if p.current_token.type = TOKEN_INT then
      (next_token p).bind fun p1 =>
      if p1.current_token.type ≠ TOKEN_IDENTIFIER then
        .fail (.error "Expected identifier after \x27int\x27" p1.lexer.current_line)
      else parse_assignment k p1
    else if p.current_token.type = TOKEN_IDENTIFIER then
      parse_assignment k p
    else if p.current_token.type = TOKEN_PRINT then
      (next_token p).bind fun p1 =>
      (expect_token TOKEN_LPAREN p1).bind fun p2 =>
      (parse_expression k p2).bind fun r =>
      (expect_token TOKEN_RPAREN r.2).bind fun p3 =>
      (expect_token TOKEN_SEMICOLON p3).bind fun p4 =>
      .ret (NODE_PRINT r.1, p4)
    else if p.current_token.type = TOKEN_IF then
      (next_token p).bind fun p1 =>
      (expect_token TOKEN_LPAREN p1).bind fun p2 =>
      (parse_expression k p2).bind fun r =>
      (expect_token TOKEN_RPAREN r.2).bind fun p3 =>
      (expect_token TOKEN_LBRACE p3).bind fun p4 =>
      (parse_block_loop k [] p4).bind fun b =>
      (expect_token TOKEN_RBRACE b.2).bind fun p5 =>
      .ret (NODE_IF r.1 (NODE_BLOCK b.1), p5)
    else if p.current_token.type = TOKEN_WHILE then
      (next_token p).bind fun p1 =>
      (expect_token TOKEN_LPAREN p1).bind fun p2 =>
      (parse_expression k p2).bind fun r =>
      (expect_token TOKEN_RPAREN r.2).bind fun p3 =>
      (expect_token TOKEN_LBRACE p3).bind fun p4 =>
      (parse_block_loop k [] p4).bind fun b =>
      (expect_token TOKEN_RBRACE b.2).bind fun p5 =>
      .ret (NODE_WHILE r.1 (NODE_BLOCK b.1), p5)
    else .ret (NULL, p)

/-- The loop `while (current_token.type != TOKEN_RBRACE)` of the `if` and `while` branches
of `parse_statement`, with `statements` the entries stored so far. -/
def parse_block_loop : Nat → List ASTNode → Parser → Result Fault (List ASTNode × Parser)
  | 0, _, _ => .div
  | k + 1, statements, p =>
    if p.current_token.type ≠ TOKEN_RBRACE then
      (parse_statement k p).bind fun r =>
      (store_statement statements r.1).bind fun statements1 =>
      parse_block_loop k statements1 r.2
    else .ret (statements, p)

end

/-- The loop `while (current_token.type != TOKEN_EOF)` of `parse_program`. -/
def parse_program_loop : Nat → List ASTNode → Parser → Result Fault (List ASTNode × Parser)
  | 0, _, _ => .div
  | k + 1, statements, p =>
    if p.current_token.type ≠ TOKEN_EOF then
      if p.current_token.type = TOKEN_NEWLINE then
        (next_token p).bind fun p1 => parse_program_loop k statements p1
      else
        (parse_statement k p).bind fun r =>
        (store_statement statements r.1).bind fun statements1 =>
        parse_program_loop k statements1 r.2
    else .ret (statements, p)

/-- The function `parse_program`. -/
def parse_program (k : Nat) (p : Parser) : Result Fault (ASTNode × Parser) :=
  (parse_program_loop k [] p).bind fun r => .ret (NODE_BLOCK r.1, r.2)

/-- The calls `lexer_init(program); parser_init(); parse_program();` of `main`. -/
def parse_source (k : Nat) (code : String) : Result Fault ASTNode :=
  (parser_init (lexer_init code.toList)).bind fun p =>
  (parse_program k p).bind fun r => .ret r.1

/-! ## Symbol table -/

/-- The struct `Symbol` without its `next` link; `value` is a C `int`. -/
structure Symbol where
  name : String
  value : Int
  deriving DecidableEq, Repr

/-- The function `lookup_symbol` on the linked list `symbol_table`, head first: the first entry with the
name, `none` for the null pointer. -/
def lookup_symbol : List Symbol → String → Option Symbol
  | [], _ => none
  | s :: rest, name => if s.name = name then some s else lookup_symbol rest name

/-- The write `existing->value = value` through the pointer `lookup_symbol` returned: it
changes the first entry with the name. -/
def set_existing : List Symbol → String → Int → List Symbol
  | [], _, _ => []
  | s :: rest, name, value =>
    if s.name = name then ⟨s.name, value⟩ :: rest else s :: set_existing rest name value

/-- The function `add_symbol`. -/
def add_symbol (symbol_table : List Symbol) (name : String) (value : Int) : List Symbol :=
  match lookup_symbol symbol_table name with
  | some _ => set_existing symbol_table name value
  | none => ⟨name, value⟩ :: symbol_table

/-! ## Interpreter -/

def INT_MIN : Int := -2147483648

def INT_MAX : Int := 2147483647

/-- Result of an `int` operation whose mathematical value is `v`: outside the range of
`int` a signed operation is undefined behaviour. -/
def int_result (v : Int) : Result Fault Int :=
  if INT_MIN ≤ v ∧ v ≤ INT_MAX then .ret v else .fail .undefined_behaviour

/-- The digits read by `atoi`, accumulated in base ten up to the first non-digit. -/
def atoi_digits : List Char → Nat → Nat
  | [], acc => acc
  | c :: cs, acc =>
    if isdigit c then atoi_digits cs (acc * 10 + (c.toNat - '0'.toNat)) else acc

/-- The library function `atoi`: leading white space, an optional sign, decimal digits. -/
def atoi (value : String) : Result Fault Int :=
  match value.data.dropWhile isspace with
  | '-' :: ds => int_result (-(atoi_digits ds 0 : Int))
  | '+' :: ds => int_result (atoi_digits ds 0 : Int)
  | ds => int_result (atoi_digits ds 0 : Int)

/-- The `strcmp` chain of `evaluate_expression` applied to the two operand values.  The
division has no test of `right`: with `right == 0` it is undefined behaviour. -/
def apply_operator (op : String) (left right : Int) : Result Fault Int :=
  if op = "+" then int_result (left + right)
  else if op = "-" then int_result (left - right)
  else if op = "*" then int_result (left * right)
  else if op = "/" then
    (if right = 0 then .fail .undefined_behaviour else int_result (Int.tdiv left right))
  else if op = "==" then .ret (if left = right then 1 else 0)
  else if op = "<" then .ret (if left < right then 1 else 0)
  else if op = ">" then .ret (if left > right then 1 else 0)
  else .ret 0

/-- The function `evaluate_expression` with the global `symbol_table` as argument.  The function reads
`node->type` first, so a null pointer is undefined behaviour; a node type without a
`case` leaves the `switch` and `return 0` is reached. -/
def evaluate_expression (symbol_table : List Symbol) : ASTNode → Result Fault Int
  | .NULL => .fail .undefined_behaviour
  | .NODE_NUMBER value => atoi value
  | .NODE_IDENTIFIER value =>
    match lookup_symbol symbol_table value with
    | none => .fail (.undefined_variable value)
    | some symbol => .ret symbol.value
  | .NODE_BINARY_OP value l r =>
    (evaluate_expression symbol_table l).bind fun left =>
    (evaluate_expression symbol_table r).bind fun right =>
    apply_operator value left right
  | _ => .ret 0

/-- State of an interpretation run: the global `symbol_table` and the values written so
far by `printf("%d\n", value)`. -/
structure Interp where
  symbol_table : List Symbol
  output : List Int
  deriving DecidableEq, Repr

/-- An interpretation run that stopped early: why, and what had been printed before. -/
structure Abort where
  fault : Fault
  output : List Int
  deriving DecidableEq, Repr

/-- The call of `evaluate_expression` from `execute_interpreter` in state `st`: an abort
carries the values printed so far. -/
def evaluate_in (st : Interp) (node : ASTNode) : Result Abort Int :=
  (evaluate_expression st.symbol_table node).mapFail fun f => ⟨f, st.output⟩

/-- The `for` loop of the `NODE_BLOCK` case, with `exec` the recursive call. -/
def execute_statements (exec : ASTNode → Interp → Result Abort Interp) :
    List ASTNode → Interp → Result Abort Interp
  | [], st => .ret st
  | s :: rest, st => (exec s st).bind fun st1 => execute_statements exec rest st1

/-- The function `execute_interpreter`. -/
def execute_interpreter : Nat → ASTNode → Interp → Result Abort Interp
  | 0, _, _ => .div
  | k + 1, node, st =>
    match node with
    | .NULL => .ret st
    | .NODE_BLOCK statements => execute_statements (execute_interpreter k) statements st
    | .NODE_ASSIGN value right =>
      (evaluate_in st right).bind fun v => .ret ⟨add_symbol st.symbol_table value v, st.output⟩
    | .NODE_PRINT left =>
      (evaluate_in st left).bind fun v => .ret ⟨st.symbol_table, st.output ++ [v]⟩
    | .NODE_IF condition body =>
      (evaluate_in st condition).bind fun c =>
      if c ≠ 0 then execute_interpreter k body st else .ret st
    | .NODE_WHILE condition body =>
      (evaluate_in st condition).bind fun c =>
      if c ≠ 0 then
        (execute_interpreter k body st).bind fun st1 =>
        execute_interpreter k (.NODE_WHILE condition body) st1
      else .ret st
    | _ => .ret st

/-- The pipeline of `main` on a source text: `lexer_init`, `parser_init`, `parse_program`,
then `execute_interpreter` with the empty symbol table. -/
def interpret_source (k : Nat) (code : String) : Result Abort Interp :=
  ((parse_source k code).mapFail fun f => ⟨f, []⟩).bind fun ast =>
  execute_interpreter k ast ⟨[], []⟩

/-! ## Code generator -/

mutual

/-- The function `generate_code`: the text it writes to `output_file`. -/
def generate_code : ASTNode → String
  | .NULL => ""
  | .NODE_BLOCK statements => "\x7b\n" ++ generate_statements statements ++ "\x7d\n"
  | .NODE_ASSIGN value right => "    int " ++ value ++ " = " ++ generate_code right ++ ";\n"
  | .NODE_PRINT left => "    printf(\"%d\\n\", " ++ generate_code left ++ ");\n"
  | .NODE_NUMBER value => value
  | .NODE_IDENTIFIER value => value
  | .NODE_BINARY_OP value left right =>
    "(" ++ generate_code left ++ " " ++ value ++ " " ++ generate_code right ++ ")"
  | .NODE_IF condition body =>
    "    if (" ++ generate_code condition ++ ") " ++ generate_code body
  | .NODE_WHILE condition body =>
    "    while (" ++ generate_code condition ++ ") " ++ generate_code body

/-- The `for` loop of the `NODE_BLOCK` case of `generate_code`. -/
def generate_statements : List ASTNode → String
  | [] => ""
  | s :: rest => generate_code s ++ generate_statements rest

end

/-- The file `output.c` as `main` writes it around `generate_code(ast)`. -/
def output_c (ast : ASTNode) : String :=
  "#include <stdio.h>\n\nint main() \x7b\n" ++ generate_code ast ++ "    return 0;\n\x7d\n"

/-! ## Source texts -/

/-- The sample program of `main`. -/
def sample_program : String :=
  "int x = 10;\nint y = 20;\nint sum = x + y;\nprint(sum);\nint i = 1;\nwhile (i < 5) \x7b\n    print(i);\n    i = i + 1;\n\x7d\nif (sum > 25) \x7b\n    print(999);\n\x7d\n"

/-- The sample program as the specification writes it, on one line. -/
def sample_source : String :=
  "int x = 10; int y = 20; int sum = x + y; print(sum); int i = 1; while (i < 5) \x7b print(i); i = i + 1; \x7d if (sum > 25) \x7b print(999); \x7d"

/-- The calls `lexer_init(code); parser_init(); parse_expression();`: one expression read
from the start of a source text. -/
def parse_expression_source (k : Nat) (code : String) : Result Fault (ASTNode × Parser) :=
  (parser_init (lexer_init code.toList)).bind fun p => parse_expression k p

/-- The tree `BinaryOp(on, ... BinaryOp(o1, first, t1) ..., tn)` for the operator and
operand pairs `(o1, t1), ..., (on, tn)`. -/
def left_fold (first : ASTNode) (steps : List (String × ASTNode)) : ASTNode :=
  steps.foldl (fun node s => NODE_BINARY_OP s.1 node s.2) first

/-- The input from parser state `p` on continues with `o1 t1 ... on tn` for the pairs
`(o1, t1), ..., (on, tn)`: the current token is an operator of the `parse_expression` loop
with lexeme `o1`, after it `parse_term` returns the tree `t1`, and so on.  Returns the
parser state after `tn`. -/
def read_operands (k : Nat) : Parser → List (String × ASTNode) → Option Parser
  | p, [] => some p
  | p, s :: rest =>
    if is_expression_operator p.current_token.type = true ∧ p.current_token.value = s.1 then
      match (next_token p).bind (parse_term k) with
      | .ret r => if r.1 = s.2 then read_operands k r.2 rest else none
      | _ => none
    else none

/-- The run modelled by `f`, a function of the fuel, ends with the outcome `r`: a normal
return or an abort reached with some amount of fuel. -/
def Outcome {ε α : Type} (f : Nat → Result ε α) (r : Result ε α) : Prop :=
  r ≠ .div ∧ ∃ k, f k = r

/-! ## Views of the lexer state -/

/-- The token `get_next_token` reads at the start of `body`, the input after the white
space, on line `line`, and the number of characters of `body` it consumes. -/
def token_at (body : List Char) (line : Nat) : Result Fault (Token × Nat) :=
  match body with
  | [] => .ret (⟨TOKEN_EOF, "EOF", line⟩, 0)
  | c :: cs =>
    if isdigit c then
      let run := (c :: cs).takeWhile isdigit
      if VALUE_SIZE ≤ run.length then .fail .undefined_behaviour
      else .ret (⟨TOKEN_NUMBER, String.mk run, line⟩, run.length)
    else if isalpha c || c = '_' then
      let run := (c :: cs).takeWhile (fun d => isalnum d || d = '_')
      if VALUE_SIZE ≤ run.length then .fail .undefined_behaviour
      else .ret (⟨keyword_type (String.mk run), String.mk run, line⟩, run.length)
    else
      match single_character_token c cs.head? with
      | some (ty, value, extra) => .ret (⟨ty, value, line⟩, 1 + extra)
      | none => .fail (.unknown_character c line)

/-- The input from the cursor on. -/
def Lexer.rest (lx : Lexer) : List Char :=
  lx.source_code.drop lx.current_pos

/-- The white space at the cursor. -/
def Lexer.blank (lx : Lexer) : List Char :=
  lx.rest.takeWhile isspace

/-- The input from the first character at or after the cursor that is no white space. -/
def Lexer.body (lx : Lexer) : List Char :=
  lx.rest.dropWhile isspace

/-- The lexer state after the white space at the cursor. -/
def Lexer.skipped (lx : Lexer) : Lexer :=
  ⟨lx.source_code, lx.current_pos + lx.blank.length, lx.current_line + lx.blank.count '\n'⟩

/-- The lexer state after `n` calls of `get_next_token` that all returned. -/
def lexer_after : Nat → Lexer → Result Fault Lexer
  | 0, lx => .ret lx
  | n + 1, lx => (get_next_token lx).bind fun r => lexer_after n r.2

/-- The line counter is one more than the number of newlines before the cursor. -/
def line_invariant (lx : Lexer) : Prop :=
  lx.current_line = 1 + (lx.source_code.take lx.current_pos).count '\n'

/-- The loop `do { token = get_next_token(); ... } while (token.type != TOKEN_EOF);` of
`main`: the tokens it prints. -/
def lexical_analysis : Nat → Lexer → Result Fault (List Token)
  | 0, _ => .div
  | k + 1, lx =>
    (get_next_token lx).bind fun r =>
      if r.1.type ≠ TOKEN_EOF then
        (lexical_analysis k r.2).bind fun tokens => .ret (r.1 :: tokens)
      else .ret [r.1]

/-! ## Shapes of trees and texts -/

/-- The expression trees: NumberLiteral, Identifier, and BinaryOp of two expressions. -/
def is_expression : ASTNode → Bool
  | .NODE_NUMBER _ => true
  | .NODE_IDENTIFIER _ => true
  | .NODE_BINARY_OP _ l r => is_expression l && is_expression r
  | _ => false

/-- Number of BinaryOp nodes of a tree of expressions. -/
def binary_ops : ASTNode → Nat
  | .NODE_BINARY_OP _ l r => binary_ops l + binary_ops r + 1
  | _ => 0

/-- The text holds no parenthesis. -/
def paren_free (s : String) : Bool :=
  s.data.all fun c => c ≠ '(' && c ≠ ')'

/-- No text stored in the expression (number, name or operator) holds a parenthesis. -/
def texts_paren_free : ASTNode → Bool
  | .NODE_NUMBER v => paren_free v
  | .NODE_IDENTIFIER v => paren_free v
  | .NODE_BINARY_OP v l r => paren_free v && texts_paren_free l && texts_paren_free r
  | _ => true

/-- Nesting depth after reading `s` from depth `d`; `none` when a `)` closes nothing. -/
def paren_depth : List Char → Nat → Option Nat
  | [], d => some d
  | c :: cs, d =>
    if c = '(' then paren_depth cs (d + 1)
    else if c = ')' then
      match d with
      | 0 => none
      | d1 + 1 => paren_depth cs d1
    else paren_depth cs d

/-- The parentheses of `s` are balanced. -/
def balanced (s : String) : Bool :=
  paren_depth s.data 0 = some 0

/-- The node is a Block without statements. -/
def empty_block : ASTNode → Bool
  | .NODE_BLOCK [] => true
  | _ => false

mutual

/-- Some If or While node of the tree has a Block without statements as its body. -/
def has_empty_body : ASTNode → Bool
  | .NODE_IF _ body => empty_block body || has_empty_body body
  | .NODE_WHILE _ body => empty_block body || has_empty_body body
  | .NODE_BLOCK statements => has_empty_body_list statements
  | _ => false

/-- Some statement of the sequence has an If or While node with an empty body. -/
def has_empty_body_list : List ASTNode → Bool
  | [] => false
  | s :: rest => has_empty_body s || has_empty_body_list rest

end

/-! ## Parser states that agree -/

/-- Two lexer states with the same input ahead and the same line counter. -/
def Lexer.sim (a b : Lexer) : Prop :=
  a.rest = b.rest ∧ a.current_line = b.current_line

/-- Two parser states with the same current token, the same input ahead and the same
line counter. -/
def Parser.sim (p q : Parser) : Prop :=
  p.current_token = q.current_token ∧ Lexer.sim p.lexer q.lexer

/-- Two results of a parsing function with the same value and parser states that agree. -/
def PairSim {α : Type} (a b : α × Parser) : Prop :=
  a.1 = b.1 ∧ Parser.sim a.2 b.2

/-- Two outcomes agree: both return, with related values, or both stop with the same
fault, or both ran out of fuel. -/
def Result.rel {ε α β : Type} (R : α → β → Prop) : Result ε α → Result ε β → Prop
  | .ret a, .ret b => R a b
  | .fail e, .fail f => e = f
  | .div, .div => True
  | _, _ => False

/-! ## Expressions that can be read back -/

/-- The seven operator texts of `evaluate_expression`. -/
def is_operator (op : String) : Bool :=
  op = "+" || op = "-" || op = "*" || op = "/" || op = "==" || op = "<" || op = ">"

/-- The token kind the lexer gives an operator text. -/
def operator_type (op : String) : TokenType :=
  if op = "+" then TOKEN_PLUS
  else if op = "-" then TOKEN_MINUS
  else if op = "*" then TOKEN_MULTIPLY
  else if op = "/" then TOKEN_DIVIDE
  else if op = "==" then TOKEN_EQUALS
  else if op = "<" then TOKEN_LESS
  else TOKEN_GREATER

/-- A non-empty string of fewer than 100 decimal digits. -/
def is_number_text (v : String) : Bool :=
  !v.data.isEmpty && v.data.all isdigit && decide (v.data.length < VALUE_SIZE)

/-- A letter or underscore followed by letters, digits and underscores, fewer than 100
characters in all, that is no keyword. -/
def is_identifier_text (v : String) : Bool :=
  (match v.data with
    | [] => false
    | c :: cs => (isalpha c || c = '_') && cs.all fun d => isalnum d || d = '_') &&
  decide (keyword_type v = TOKEN_IDENTIFIER) && decide (v.data.length < VALUE_SIZE)

/-- The expression trees the round trip is about: number texts, identifier texts and the
seven operators. -/
def well_formed_expression : ASTNode → Bool
  | .NODE_NUMBER v => is_number_text v
  | .NODE_IDENTIFIER v => is_identifier_text v
  | .NODE_BINARY_OP op l r =>
    is_operator op && well_formed_expression l && well_formed_expression r
  | _ => false

/-- Fuel that lets `parse_factor` read back the text of an expression. -/
def expression_fuel : ASTNode → Nat
  | .NODE_BINARY_OP _ l r => max (expression_fuel l) (expression_fuel r) + 7
  | _ => 1

/-- The text after a lexeme does not continue it: it is empty or starts with a character
that is no letter, digit or underscore. -/
def ends_lexeme (rest : List Char) : Prop :=
  ∀ c, rest.head? = some c → (isalnum c || c = '_') = false

/-! ## Expressions built by the parser -/

/-- A token whose lexeme holds no parenthesis, unless it is a parenthesis token. -/
def Token.clean (t : Token) : Prop :=
  t.type = TOKEN_LPAREN ∨ t.type = TOKEN_RPAREN ∨ paren_free t.value = true

/-- An expression tree none of whose stored texts holds a parenthesis. -/
def plain_expression (e : ASTNode) : Bool :=
  is_expression e && texts_paren_free e

/-- An expression and the expressions below it. -/
def subexpressions : ASTNode → List ASTNode
  | .NODE_BINARY_OP op l r => .NODE_BINARY_OP op l r :: (subexpressions l ++ subexpressions r)
  | e => [e]

mutual

/-- The expressions of a statement tree: the operands of its Assign, Print, If and While
nodes, with the expressions below them. -/
def expressions_of : ASTNode → List ASTNode
  | .NODE_ASSIGN _ right => subexpressions right
  | .NODE_PRINT left => subexpressions left
  | .NODE_IF condition body => subexpressions condition ++ expressions_of body
  | .NODE_WHILE condition body => subexpressions condition ++ expressions_of body
  | .NODE_BLOCK statements => expressions_of_list statements
  | _ => []

/-- The expressions of a sequence of statements. -/
def expressions_of_list : List ASTNode → List ASTNode
  | [] => []
  | s :: rest => expressions_of s ++ expressions_of_list rest

end

/-! ## Agreement of runs with different fuel -/

/-- Outcome `x` is `y`, unless the fuel ran out in `x`. -/
def Result.le {ε α : Type} (x y : Result ε α) : Prop :=
  x = .div ∨ x = y

theorem Result.le_refl {ε α : Type} (x : Result ε α) : x.le x :=
  Or.inr rfl

theorem Result.div_le {ε α : Type} (y : Result ε α) : (Result.div : Result ε α).le y :=
  Or.inl rfl

theorem Result.le_trans {ε α : Type} {x y z : Result ε α} (h1 : x.le y) (h2 : y.le z) :
    x.le z := by
  rcases h1 with h | h
  · exact Or.inl h
  · rw [h]; exact h2

theorem Result.bind_le {ε α β : Type} {x y : Result ε α} {f g : α → Result ε β}
    (hx : x.le y) (hf : ∀ a, (f a).le (g a)) : (x.bind f).le (y.bind g) := by
  rcases hx with h | h
  · rw [h]; exact Or.inl rfl
  · rw [h]
    cases y with
    | ret a => exact hf a
    | fail e => exact Or.inr rfl
    | div => exact Or.inl rfl

theorem Result.ite_le {ε α : Type} {c : Prop} [Decidable c] {x y u v : Result ε α}
    (h1 : x.le u) (h2 : y.le v) : (if c then x else y).le (if c then u else v) := by
  split
  · exact h1
  · exact h2

theorem Result.mapFail_le {ε δ α : Type} {x y : Result ε α} (g : ε → δ) (h : x.le y) :
    (x.mapFail g).le (y.mapFail g) := by
  rcases h with h | h
  · rw [h]; exact Or.inl rfl
  · rw [h]; exact Or.inr rfl

theorem Result.eq_of_le {ε α : Type} {x y : Result ε α} (h : x.le y) (hx : x ≠ .div) : y = x := by
  rcases h with h | h
  · exact absurd h hx
  · exact h.symm

/-- One more unit of fuel does not change an outcome of the expression parser. -/
theorem parse_expression_step (k : Nat) :
    (∀ p, (parse_factor k p).le (parse_factor (k + 1) p)) ∧
    (∀ p, (parse_term k p).le (parse_term (k + 1) p)) ∧
    (∀ n p, (parse_term_loop k n p).le (parse_term_loop (k + 1) n p)) ∧
    (∀ p, (parse_expression k p).le (parse_expression (k + 1) p)) ∧
    (∀ n p, (parse_expression_loop k n p).le (parse_expression_loop (k + 1) n p)) := by
  induction k with
  | zero =>
    refine ⟨?_, ?_, ?_, ?_, ?_⟩ <;> intros <;> exact Result.div_le _
  | succ k ih =>
    obtain ⟨hf, ht, htl, he, hel⟩ := ih
    refine ⟨?_, ?_, ?_, ?_, ?_⟩
    · intro p
      unfold parse_factor
      repeat first
        | exact Result.le_refl _
        | exact he _
        | apply Result.ite_le
        | apply Result.bind_le
        | intro _
    · intro p
      unfold parse_term
      exact Result.bind_le (hf p) (fun r => htl r.1 r.2)
    · intro n p
      unfold parse_term_loop
      repeat first
        | exact Result.le_refl _
        | exact hf _
        | exact htl _ _
        | apply Result.ite_le
        | apply Result.bind_le
        | intro _
    · intro p
      unfold parse_expression
      exact Result.bind_le (ht p) (fun r => hel r.1 r.2)
    · intro n p
      unfold parse_expression_loop
      repeat first
        | exact Result.le_refl _
        | exact ht _
        | exact hel _ _
        | apply Result.ite_le
        | apply Result.bind_le
        | intro _

theorem parse_assignment_step (k : Nat) (p : Parser) :
    (parse_assignment k p).le (parse_assignment (k + 1) p) := by
  unfold parse_assignment
  repeat first
    | exact Result.le_refl _
    | exact (parse_expression_step k).2.2.2.1 _
    | apply Result.bind_le
    | intro _

/-- One more unit of fuel does not change an outcome of the statement parser. -/
theorem parse_statement_step (k : Nat) :
    (∀ p, (parse_statement k p).le (parse_statement (k + 1) p)) ∧
    (∀ l p, (parse_block_loop k l p).le (parse_block_loop (k + 1) l p)) := by
  induction k with
  | zero =>
    refine ⟨?_, ?_⟩ <;> intros <;> exact Result.div_le _
  | succ k ih =>
    obtain ⟨hs, hb⟩ := ih
    have he := (parse_expression_step k).2.2.2.1
    refine ⟨?_, ?_⟩
    · intro p
      unfold parse_statement
      repeat first
        | exact Result.le_refl _
        | exact he _
        | exact hb _ _
        | exact parse_assignment_step _ _
        | apply Result.ite_le
        | apply Result.bind_le
        | intro _
    · intro l p
      unfold parse_block_loop
      repeat first
        | exact Result.le_refl _
        | exact hs _
        | exact hb _ _
        | apply Result.ite_le
        | apply Result.bind_le
        | intro _

theorem parse_program_loop_step (k : Nat) :
    ∀ l p, (parse_program_loop k l p).le (parse_program_loop (k + 1) l p) := by
  induction k with
  | zero => intros; exact Result.div_le _
  | succ k ih =>
    intro l p
    unfold parse_program_loop
    repeat first
      | exact Result.le_refl _
      | exact (parse_statement_step k).1 _
      | exact ih _ _
      | apply Result.ite_le
      | apply Result.bind_le
      | intro _

theorem parse_source_step (code : String) (k : Nat) :
    (parse_source k code).le (parse_source (k + 1) code) := by
  unfold parse_source parse_program
  repeat first
    | exact Result.le_refl _
    | exact parse_program_loop_step _ _ _
    | apply Result.bind_le
    | intro _

theorem execute_statements_le {f g : ASTNode → Interp → Result Abort Interp}
    (h : ∀ n st, (f n st).le (g n st)) :
    ∀ l st, (execute_statements f l st).le (execute_statements g l st) := by
  intro l
  induction l with
  | nil => intro st; exact Result.le_refl _
  | cons a l ih =>
    intro st
    unfold execute_statements
    exact Result.bind_le (h a st) ih

/-- One more unit of fuel does not change an outcome of the interpreter. -/
theorem execute_interpreter_step (k : Nat) :
    ∀ node st, (execute_interpreter k node st).le (execute_interpreter (k + 1) node st) := by
  induction k with
  | zero => intros; exact Result.div_le _
  | succ k ih =>
    intro node st
    unfold execute_interpreter
    cases node <;> simp only
    all_goals
      repeat first
        | exact Result.le_refl _
        | exact ih _ _
        | exact execute_statements_le ih _ _
        | apply Result.ite_le
        | apply Result.bind_le
        | intro _

theorem interpret_source_step (code : String) (k : Nat) :
    (interpret_source k code).le (interpret_source (k + 1) code) := by
  unfold interpret_source
  exact Result.bind_le (Result.mapFail_le _ (parse_source_step code k))
    (fun ast => execute_interpreter_step k ast _)

/-- A model that keeps its outcome with one more unit of fuel keeps it with any more. -/
theorem Result.le_add {ε α : Type} {f : Nat → Result ε α} (h : ∀ k, (f k).le (f (k + 1)))
    (k j : Nat) : (f k).le (f (k + j)) := by
  induction j with
  | zero => exact Result.le_refl _
  | succ j ih => exact Result.le_trans ih (h (k + j))

/-- An outcome reached with fuel `k` is the outcome with any fuel `k + j`. -/
theorem Result.stable {ε α : Type} {f : Nat → Result ε α} (h : ∀ k, (f k).le (f (k + 1)))
    {k : Nat} {r : Result ε α} (hk : f k = r) (hr : r ≠ .div) (j : Nat) : f (k + j) = r := by
  have h1 := Result.le_add h k j
  rw [hk] at h1
  exact Result.eq_of_le h1 hr

theorem parse_factor_stable {k : Nat} {p : Parser} {r : Result Fault (ASTNode × Parser)}
    (hk : parse_factor k p = r) (hr : r ≠ .div) (j : Nat) : parse_factor (k + j) p = r :=
  Result.stable (fun i => (parse_expression_step i).1 p) hk hr j

theorem parse_term_stable {k : Nat} {p : Parser} {r : Result Fault (ASTNode × Parser)}
    (hk : parse_term k p = r) (hr : r ≠ .div) (j : Nat) : parse_term (k + j) p = r :=
  Result.stable (fun i => (parse_expression_step i).2.1 p) hk hr j

theorem parse_expression_stable {k : Nat} {p : Parser} {r : Result Fault (ASTNode × Parser)}
    (hk : parse_expression k p = r) (hr : r ≠ .div) (j : Nat) : parse_expression (k + j) p = r :=
  Result.stable (fun i => (parse_expression_step i).2.2.2.1 p) hk hr j

theorem parse_statement_stable {k : Nat} {p : Parser} {r : Result Fault (ASTNode × Parser)}
    (hk : parse_statement k p = r) (hr : r ≠ .div) (j : Nat) : parse_statement (k + j) p = r :=
  Result.stable (fun i => (parse_statement_step i).1 p) hk hr j

theorem parse_source_stable {k : Nat} {code : String} {r : Result Fault ASTNode}
    (hk : parse_source k code = r) (hr : r ≠ .div) (j : Nat) : parse_source (k + j) code = r :=
  Result.stable (parse_source_step code) hk hr j

theorem execute_interpreter_stable {k : Nat} {node : ASTNode} {st : Interp}
    {r : Result Abort Interp} (hk : execute_interpreter k node st = r) (hr : r ≠ .div)
    (j : Nat) : execute_interpreter (k + j) node st = r :=
  Result.stable (fun i => execute_interpreter_step i node st) hk hr j

theorem interpret_source_stable {k : Nat} {code : String} {r : Result Abort Interp}
    (hk : interpret_source k code = r) (hr : r ≠ .div) (j : Nat) :
    interpret_source (k + j) code = r :=
  Result.stable (interpret_source_step code) hk hr j

/-! ## The sample program -/

/-- C1: lexing, parsing and interpreting the sample program (as `main` holds it and as
the specification writes it) from the empty symbol table returns, with any fuel from 14
on, and the values printed are 30, 1, 2, 3, 4, 999 in this order. -/
theorem sample_program_prints (j : Nat) :
    interpret_source (14 + j) sample_program
      = .ret ⟨[⟨"i", 5⟩, ⟨"sum", 30⟩, ⟨"y", 20⟩, ⟨"x", 10⟩], [30, 1, 2, 3, 4, 999]⟩ ∧
    interpret_source (14 + j) sample_source
      = .ret ⟨[⟨"i", 5⟩, ⟨"sum", 30⟩, ⟨"y", 20⟩, ⟨"x", 10⟩], [30, 1, 2, 3, 4, 999]⟩ :=
  ⟨interpret_source_stable (by decide!) (by simp) j,
   interpret_source_stable (by decide!) (by simp) j⟩

/-! ## Run-time errors -/

/-- C2 (the code differs): a `/` node whose right operand evaluates to 0 does not end in
the RuntimeError the specification asks for.  `evaluate_expression` divides without a
test, which is undefined behaviour of the C program and prints no message; so does the
run of `print(5 / 0);`, with nothing printed. -/
theorem division_by_zero_undefined (symbol_table : List Symbol) (l r : ASTNode) (vl : Int)
    (hl : evaluate_expression symbol_table l = .ret vl)
    (hr : evaluate_expression symbol_table r = .ret 0) :
    evaluate_expression symbol_table (NODE_BINARY_OP "/" l r) = .fail .undefined_behaviour ∧
    Fault.undefined_behaviour.isRuntimeError = false ∧
    ∀ j, interpret_source (6 + j) "print(5 / 0);" = .fail ⟨.undefined_behaviour, []⟩ := by
  refine ⟨?_, rfl, fun j => interpret_source_stable (by decide!) (by simp) j⟩
  simp [evaluate_expression, hl, hr, Result.bind, apply_operator]

theorem division_by_zero_undefined_witness :
    evaluate_expression [] (NODE_NUMBER "5") = .ret 5 ∧
    evaluate_expression [] (NODE_NUMBER "0") = .ret 0 ∧
    evaluate_expression [] (NODE_BINARY_OP "/" (NODE_NUMBER "5") (NODE_NUMBER "0"))
      = .fail .undefined_behaviour :=
  ⟨by decide!, by decide!,
   (division_by_zero_undefined [] (NODE_NUMBER "5") (NODE_NUMBER "0") 5
      (by decide!) (by decide!)).1⟩

/-- C3: when `lookup_symbol` finds no entry for `n`, evaluating `Identifier(n)` stops
with the "Undefined variable" message, a RuntimeError, and returns no integer; the run of
`print(z);` from the empty symbol table stops with it, with nothing printed. -/
theorem undefined_variable_runtime_error (symbol_table : List Symbol) (n : String)
    (h : lookup_symbol symbol_table n = none) :
    evaluate_expression symbol_table (NODE_IDENTIFIER n) = .fail (.undefined_variable n) ∧
    (Fault.undefined_variable n).isRuntimeError = true ∧
    ∀ j, interpret_source (5 + j) "print(z);" = .fail ⟨.undefined_variable "z", []⟩ := by
  refine ⟨?_, rfl, fun j => interpret_source_stable (by decide!) (by simp) j⟩
  simp [evaluate_expression, h]

theorem undefined_variable_runtime_error_witness :
    lookup_symbol [⟨"x", 10⟩, ⟨"y", 20⟩] "z" = none ∧
    evaluate_expression [⟨"x", 10⟩, ⟨"y", 20⟩] (NODE_IDENTIFIER "z")
      = .fail (.undefined_variable "z") :=
  ⟨by decide!, (undefined_variable_runtime_error [⟨"x", 10⟩, ⟨"y", 20⟩] "z" (by decide!)).1⟩

/-! ## Tokens that start no statement -/

/-- C4 (the code differs): parsing `while (1) { print(1);` or `if (1) { print(1);` does not
end in a ParseError.  At the end of input `parse_statement` returns its initial `NULL`
without reading a token, the block loop stores it and runs again, and the store after
the hundredth entry leaves the array: undefined behaviour, with no message. -/
theorem unterminated_block_overruns (j : Nat) :
    parse_source (104 + j) "while (1) \x7b print(1);" = .fail .undefined_behaviour ∧
    parse_source (104 + j) "if (1) \x7b print(1);" = .fail .undefined_behaviour ∧
    Fault.undefined_behaviour.isParseError = false :=
  ⟨parse_source_stable (by decide!) (by simp) j,
   parse_source_stable (by decide!) (by simp) j, rfl⟩

/-- C5 (the code differs): with a current token that is none of INT, IDENTIFIER, PRINT,
IF, WHILE, `parse_statement` reports nothing: it returns the null pointer and leaves the
parser state as it was.  `parse_program` on `;`, `5;` or `else` then stores null pointers
until the store leaves its array of 100 entries: undefined behaviour, not a ParseError. -/
theorem parse_statement_other_token (k : Nat) (p : Parser)
    (h : p.current_token.type ∉
      [TOKEN_INT, TOKEN_IDENTIFIER, TOKEN_PRINT, TOKEN_IF, TOKEN_WHILE]) :
    parse_statement (k + 1) p = .ret (NULL, p) ∧
    ∀ j, parse_source (102 + j) ";" = .fail .undefined_behaviour ∧
      parse_source (102 + j) "5;" = .fail .undefined_behaviour ∧
      parse_source (102 + j) "else" = .fail .undefined_behaviour := by
  refine ⟨?_, fun j => ⟨parse_source_stable (by decide!) (by simp) j,
    parse_source_stable (by decide!) (by simp) j,
    parse_source_stable (by decide!) (by simp) j⟩⟩
  simp only [List.mem_cons, List.mem_singleton, List.not_mem_nil, or_false, not_or] at h
  obtain ⟨h1, h2, h3, h4, h5⟩ := h
  unfold parse_statement
  simp [h1, h2, h3, h4, h5]

theorem parse_statement_other_token_witness :
    parse_statement 1 ⟨⟨[';'], 1, 1⟩, ⟨TOKEN_SEMICOLON, ";", 1⟩⟩
      = .ret (NULL, ⟨⟨[';'], 1, 1⟩, ⟨TOKEN_SEMICOLON, ";", 1⟩⟩) :=
  (parse_statement_other_token 0 ⟨⟨[';'], 1, 1⟩, ⟨TOKEN_SEMICOLON, ";", 1⟩⟩ (by decide)).1

/-! ## Symbol table -/

theorem lookup_set_existing (t : List Symbol) (n m : String) (v : Int) :
    lookup_symbol (set_existing t n v) m =
      if m = n then (lookup_symbol t n).map (fun _ => ⟨n, v⟩) else lookup_symbol t m := by
  induction t with
  | nil => simp [set_existing, lookup_symbol]
  | cons s rest ih =>
    unfold set_existing
    by_cases hs : s.name = n
    · by_cases hm : m = n
      · subst hm; simp [hs, lookup_symbol]
      · have : ¬ n = m := fun e => hm e.symm
        simp [hs, hm, lookup_symbol, this]
    · by_cases hm : m = n
      · subst hm; simp [hs, lookup_symbol, ih]
      · simp [hs, hm, lookup_symbol, ih]

/-- C8: after `add_symbol(n, v)`, `lookup_symbol(m)` finds the entry `n` with value `v`
when `m = n`, and finds exactly what it found before the call (the same entry, or
nothing) when `m` differs from `n`. -/
theorem lookup_add_symbol (t : List Symbol) (n m : String) (v : Int) :
    lookup_symbol (add_symbol t n v) m =
      if m = n then some ⟨n, v⟩ else lookup_symbol t m := by
  unfold add_symbol
  cases hl : lookup_symbol t n with
  | none =>
    by_cases hm : m = n
    · subst hm; simp [lookup_symbol]
    · have : ¬ n = m := fun e => hm e.symm
      simp [lookup_symbol, hm, this]
  | some s =>
    simp only [lookup_set_existing, hl, Option.map_some']

/-! ## Associativity and precedence -/

theorem parse_term_loop_stable {k : Nat} {n : ASTNode} {p : Parser}
    {r : Result Fault (ASTNode × Parser)}
    (hk : parse_term_loop k n p = r) (hr : r ≠ .div) (j : Nat) :
    parse_term_loop (k + j) n p = r :=
  Result.stable (fun i => (parse_expression_step i).2.2.1 n p) hk hr j

theorem parse_expression_loop_stable {k : Nat} {n : ASTNode} {p : Parser}
    {r : Result Fault (ASTNode × Parser)}
    (hk : parse_expression_loop k n p = r) (hr : r ≠ .div) (j : Nat) :
    parse_expression_loop (k + j) n p = r :=
  Result.stable (fun i => (parse_expression_step i).2.2.2.2 n p) hk hr j

/-- The loop of `parse_expression` folds the operands that follow to the left. -/
theorem parse_expression_loop_chain (k : Nat) :
    ∀ (steps : List (String × ASTNode)) (node : ASTNode) (p q : Parser),
      read_operands k p steps = some q →
      is_expression_operator q.current_token.type = false →
      parse_expression_loop (k + steps.length + 1) node p = .ret (left_fold node steps, q) := by
  intro steps
  induction steps with
  | nil =>
    intro node p q h hq
    simp only [read_operands, Option.some.injEq] at h
    subst h
    simp [parse_expression_loop, left_fold, hq]
  | cons s rest ih =>
    intro node p q h hq
    unfold read_operands at h
    split at h
    · rename_i hop
      split at h
      · rename_i r hr
        split at h
        · rename_i ht
          cases hn : next_token p with
          | ret p1 =>
            rw [hn] at hr
            have hterm : parse_term (k + (rest.length + 1)) p1 = .ret r :=
              parse_term_stable hr (by simp) _
            have hloop := ih (NODE_BINARY_OP s.1 node s.2) r.2 q h hq
            have hfuel : k + (s :: rest).length + 1 = (k + (rest.length + 1)) + 1 := by
              simp [List.length_cons]
            rw [hfuel]
            unfold parse_expression_loop
            simp only [hop.1, if_true, hn, Result.bind, hterm]
            rw [hop.2, ht]
            simpa [left_fold, Nat.add_assoc] using hloop
          | fail e => rw [hn] at hr; simp [Result.bind] at hr
          | div => rw [hn] at hr; simp [Result.bind] at hr
        · exact absurd h (by simp)
      · exact absurd h (by simp)
    · exact absurd h (by simp)

/-- A term followed by operands parses to their left fold. -/
theorem parse_expression_chain (k : Nat) (p0 p1 q : Parser) (t0 : ASTNode)
    (steps : List (String × ASTNode))
    (h0 : parse_term k p0 = .ret (t0, p1))
    (hs : read_operands k p1 steps = some q)
    (hq : is_expression_operator q.current_token.type = false) (j : Nat) :
    parse_expression (k + steps.length + 2 + j) p0 = .ret (left_fold t0 steps, q) := by
  refine parse_expression_stable ?_ (by simp) j
  have hterm : parse_term (k + steps.length + 1) p0 = .ret (t0, p1) := by
    have := parse_term_stable h0 (by simp) (steps.length + 1)
    simpa [Nat.add_assoc] using this
  have hloop := parse_expression_loop_chain k steps t0 p1 q hs hq
  show parse_expression ((k + steps.length + 1) + 1) p0 = _
  unfold parse_expression
  simp only [hterm, Result.bind, hloop]

theorem parse_expression_source_stable {k : Nat} {code : String}
    {r : Result Fault (ASTNode × Parser)}
    (hk : parse_expression_source k code = r) (hr : r ≠ .div) (j : Nat) :
    parse_expression_source (k + j) code = r :=
  Result.stable
    (fun i => Result.bind_le (Result.le_refl _) (fun p => (parse_expression_step i).2.2.2.1 p))
    hk hr j

/-- C6: `parse_expression` is left-associative over its five operators.  When
`parse_term` returns `t0` at the start and the input continues with operators `o1 .. on`
(each one of `+ - == < >`) and terms for which `parse_term` returns `t1 .. tn`, followed
by a token that is none of the five, `parse_expression` returns the left fold
`BinaryOp(on, ... BinaryOp(o1, t0, t1) ..., tn)` with the parser after `tn`.  In particular
`1 - 2 - 3` parses to `BinaryOp(-, BinaryOp(-, 1, 2), 3)`, which evaluates to -4. -/
theorem parse_expression_left_associative (k : Nat) (p0 p1 q : Parser) (t0 : ASTNode)
    (steps : List (String × ASTNode))
    (h0 : parse_term k p0 = .ret (t0, p1))
    (hs : read_operands k p1 steps = some q)
    (hq : is_expression_operator q.current_token.type = false) :
    (∀ j, parse_expression (k + steps.length + 2 + j) p0 = .ret (left_fold t0 steps, q)) ∧
    (∀ j, parse_expression_source (5 + j) "1 - 2 - 3" =
      .ret (NODE_BINARY_OP "-" (NODE_BINARY_OP "-" (NODE_NUMBER "1") (NODE_NUMBER "2"))
              (NODE_NUMBER "3"),
            ⟨⟨"1 - 2 - 3".toList, 9, 1⟩, ⟨TOKEN_EOF, "EOF", 1⟩⟩)) ∧
    evaluate_expression []
      (NODE_BINARY_OP "-" (NODE_BINARY_OP "-" (NODE_NUMBER "1") (NODE_NUMBER "2"))
        (NODE_NUMBER "3")) = .ret (-4) :=
  ⟨parse_expression_chain k p0 p1 q t0 steps h0 hs hq,
   fun j => parse_expression_source_stable (by decide!) (by simp) j,
   by decide!⟩

theorem parse_expression_left_associative_witness :
    parse_term 2 ⟨⟨"1 - 2 - 3".toList, 1, 1⟩, ⟨TOKEN_NUMBER, "1", 1⟩⟩
      = .ret (NODE_NUMBER "1", ⟨⟨"1 - 2 - 3".toList, 3, 1⟩, ⟨TOKEN_MINUS, "-", 1⟩⟩) ∧
    read_operands 2 ⟨⟨"1 - 2 - 3".toList, 3, 1⟩, ⟨TOKEN_MINUS, "-", 1⟩⟩
        [("-", NODE_NUMBER "2"), ("-", NODE_NUMBER "3")]
      = some ⟨⟨"1 - 2 - 3".toList, 9, 1⟩, ⟨TOKEN_EOF, "EOF", 1⟩⟩ ∧
    parse_expression 6 ⟨⟨"1 - 2 - 3".toList, 1, 1⟩, ⟨TOKEN_NUMBER, "1", 1⟩⟩
      = .ret (left_fold (NODE_NUMBER "1") [("-", NODE_NUMBER "2"), ("-", NODE_NUMBER "3")],
              ⟨⟨"1 - 2 - 3".toList, 9, 1⟩, ⟨TOKEN_EOF, "EOF", 1⟩⟩) :=
  ⟨by decide!, by decide!,
   (parse_expression_left_associative 2
      ⟨⟨"1 - 2 - 3".toList, 1, 1⟩, ⟨TOKEN_NUMBER, "1", 1⟩⟩
      ⟨⟨"1 - 2 - 3".toList, 3, 1⟩, ⟨TOKEN_MINUS, "-", 1⟩⟩
      ⟨⟨"1 - 2 - 3".toList, 9, 1⟩, ⟨TOKEN_EOF, "EOF", 1⟩⟩
      (NODE_NUMBER "1") [("-", NODE_NUMBER "2"), ("-", NODE_NUMBER "3")]
      (by decide!) (by decide!) (by decide!)).1 0⟩

theorem not_term_of_expression_operator {t : TokenType}
    (h : is_expression_operator t = true) : is_term_operator t = false := by
  cases t <;> simp [is_expression_operator, is_term_operator] at h ⊢

/-- A factor followed by no `*` or `/` is a term. -/
theorem parse_term_single {k : Nat} {p p1 : Parser} {a : ASTNode}
    (hf : parse_factor k p = .ret (a, p1))
    (hn : is_term_operator p1.current_token.type = false) :
    parse_term (k + 2) p = .ret (a, p1) := by
  have h1 : parse_factor (k + 1) p = .ret (a, p1) := parse_factor_stable hf (by simp) 1
  show parse_term ((k + 1) + 1) p = _
  unfold parse_term
  simp only [h1, Result.bind]
  unfold parse_term_loop
  simp [hn]

/-- Two factors around one `*` or `/` are a term. -/
theorem parse_term_pair {k : Nat} {p p1 n1 p2 : Parser} {a b : ASTNode}
    (hf : parse_factor k p = .ret (a, p1))
    (hop : is_term_operator p1.current_token.type = true)
    (hx : next_token p1 = .ret n1)
    (hb : parse_factor k n1 = .ret (b, p2))
    (hn : is_term_operator p2.current_token.type = false) :
    parse_term (k + 3) p = .ret (NODE_BINARY_OP p1.current_token.value a b, p2) := by
  have h2 : parse_factor (k + 2) p = .ret (a, p1) := parse_factor_stable hf (by simp) 2
  have h1 : parse_factor (k + 1) n1 = .ret (b, p2) := parse_factor_stable hb (by simp) 1
  show parse_term ((k + 2) + 1) p = _
  unfold parse_term
  simp only [h2, Result.bind]
  show parse_term_loop ((k + 1) + 1) a p1 = _
  unfold parse_term_loop
  simp only [hop, if_true, hx, Result.bind, h1]
  unfold parse_term_loop
  simp [hn]

/-- C7: `*` and `/` bind tighter than `+ - == < >`.  For three factors `a`, `b`, `c` read by
`parse_factor` with one operator token between each two and no operator after `c`:
with a lower operator `p` then a higher operator `m` (`a p b m c`) `parse_expression`
returns `BinaryOp(p, a, BinaryOp(m, b, c))`, and with `m` then `p` (`a m b p c`) it returns
`BinaryOp(p, BinaryOp(m, a, b), c)`.  In particular `2 + 3 * 4` evaluates to 14. -/
theorem term_operators_bind_tighter (k : Nat) (p0 p1 n1 p2 n2 p3 : Parser) (a b c : ASTNode)
    (ha : parse_factor k p0 = .ret (a, p1))
    (h1 : next_token p1 = .ret n1)
    (hb : parse_factor k n1 = .ret (b, p2))
    (h2 : next_token p2 = .ret n2)
    (hc : parse_factor k n2 = .ret (c, p3))
    (he : is_expression_operator p3.current_token.type = false)
    (ht : is_term_operator p3.current_token.type = false) :
    (is_expression_operator p1.current_token.type = true →
      is_term_operator p2.current_token.type = true →
      ∀ j, parse_expression (k + 6 + j) p0 =
        .ret (NODE_BINARY_OP p1.current_token.value a
                (NODE_BINARY_OP p2.current_token.value b c), p3)) ∧
    (is_term_operator p1.current_token.type = true →
      is_expression_operator p2.current_token.type = true →
      ∀ j, parse_expression (k + 6 + j) p0 =
        .ret (NODE_BINARY_OP p2.current_token.value
                (NODE_BINARY_OP p1.current_token.value a b) c, p3)) ∧
    (∀ j, parse_expression_source (5 + j) "2 + 3 * 4" =
      .ret (NODE_BINARY_OP "+" (NODE_NUMBER "2")
              (NODE_BINARY_OP "*" (NODE_NUMBER "3") (NODE_NUMBER "4")),
            ⟨⟨"2 + 3 * 4".toList, 9, 1⟩, ⟨TOKEN_EOF, "EOF", 1⟩⟩)) ∧
    evaluate_expression []
      (NODE_BINARY_OP "+" (NODE_NUMBER "2")
        (NODE_BINARY_OP "*" (NODE_NUMBER "3") (NODE_NUMBER "4"))) = .ret 14 := by
  refine ⟨?_, ?_, fun j => parse_expression_source_stable (by decide!) (by simp) j, by decide!⟩
  · intro hp hm j
    have hfirst : parse_term (k + 3) p0 = .ret (a, p1) :=
      parse_term_stable (parse_term_single ha (not_term_of_expression_operator hp)) (by simp) 1
    have hsecond := parse_term_pair hb hm h2 hc ht
    have hs : read_operands (k + 3) p1
        [(p1.current_token.value, NODE_BINARY_OP p2.current_token.value b c)] = some p3 := by
      simp [read_operands, hp, h1, Result.bind, hsecond]
    exact parse_expression_chain (k + 3) p0 p1 p3 a _ hfirst hs he j
  · intro hm hp j
    have hfirst := parse_term_pair ha hm h1 hb (not_term_of_expression_operator hp)
    have hsecond : parse_term (k + 3) n2 = .ret (c, p3) :=
      parse_term_stable (parse_term_single hc ht) (by simp) 1
    have hs : read_operands (k + 3) p2 [(p2.current_token.value, c)] = some p3 := by
      simp [read_operands, hp, h2, Result.bind, hsecond]
    exact parse_expression_chain (k + 3) p0 p2 p3 _ _ hfirst hs he j

theorem term_operators_bind_tighter_witness :
    parse_factor 1 ⟨⟨"2 + 3 * 4".toList, 1, 1⟩, ⟨TOKEN_NUMBER, "2", 1⟩⟩
      = .ret (NODE_NUMBER "2", ⟨⟨"2 + 3 * 4".toList, 3, 1⟩, ⟨TOKEN_PLUS, "+", 1⟩⟩) ∧
    next_token ⟨⟨"2 + 3 * 4".toList, 3, 1⟩, ⟨TOKEN_PLUS, "+", 1⟩⟩
      = .ret ⟨⟨"2 + 3 * 4".toList, 5, 1⟩, ⟨TOKEN_NUMBER, "3", 1⟩⟩ ∧
    parse_factor 1 ⟨⟨"2 + 3 * 4".toList, 5, 1⟩, ⟨TOKEN_NUMBER, "3", 1⟩⟩
      = .ret (NODE_NUMBER "3", ⟨⟨"2 + 3 * 4".toList, 7, 1⟩, ⟨TOKEN_MULTIPLY, "*", 1⟩⟩) ∧
    next_token ⟨⟨"2 + 3 * 4".toList, 7, 1⟩, ⟨TOKEN_MULTIPLY, "*", 1⟩⟩
      = .ret ⟨⟨"2 + 3 * 4".toList, 9, 1⟩, ⟨TOKEN_NUMBER, "4", 1⟩⟩ ∧
    parse_factor 1 ⟨⟨"2 + 3 * 4".toList, 9, 1⟩, ⟨TOKEN_NUMBER, "4", 1⟩⟩
      = .ret (NODE_NUMBER "4", ⟨⟨"2 + 3 * 4".toList, 9, 1⟩, ⟨TOKEN_EOF, "EOF", 1⟩⟩) ∧
    parse_expression 7 ⟨⟨"2 + 3 * 4".toList, 1, 1⟩, ⟨TOKEN_NUMBER, "2", 1⟩⟩
      = .ret (NODE_BINARY_OP "+" (NODE_NUMBER "2")
                (NODE_BINARY_OP "*" (NODE_NUMBER "3") (NODE_NUMBER "4")),
              ⟨⟨"2 + 3 * 4".toList, 9, 1⟩, ⟨TOKEN_EOF, "EOF", 1⟩⟩) :=
  ⟨by decide!, by decide!, by decide!, by decide!, by decide!,
   (term_operators_bind_tighter 1
      ⟨⟨"2 + 3 * 4".toList, 1, 1⟩, ⟨TOKEN_NUMBER, "2", 1⟩⟩
      ⟨⟨"2 + 3 * 4".toList, 3, 1⟩, ⟨TOKEN_PLUS, "+", 1⟩⟩
      ⟨⟨"2 + 3 * 4".toList, 5, 1⟩, ⟨TOKEN_NUMBER, "3", 1⟩⟩
      ⟨⟨"2 + 3 * 4".toList, 7, 1⟩, ⟨TOKEN_MULTIPLY, "*", 1⟩⟩
      ⟨⟨"2 + 3 * 4".toList, 9, 1⟩, ⟨TOKEN_NUMBER, "4", 1⟩⟩
      ⟨⟨"2 + 3 * 4".toList, 9, 1⟩, ⟨TOKEN_EOF, "EOF", 1⟩⟩
      (NODE_NUMBER "2") (NODE_NUMBER "3") (NODE_NUMBER "4")
      (by decide!) (by decide!) (by decide!) (by decide!) (by decide!)
      (by decide) (by decide)).1 (by decide) (by decide) 0⟩

/-! ## The while loop -/

/-- C10: loop unfolding.  In a state where the condition of a While node evaluates to `c`:
with `c = 0` the execution returns the state unchanged (same symbol table, nothing
printed); with `c` nonzero the execution is the execution of the body followed by the
execution of the same While node in the resulting state, step for step in the model and
with the same outcome (final state, or fault and values printed before it) whenever
either of the two has one. -/
theorem while_unfolding (condition body : ASTNode) (st : Interp) (c : Int)
    (hc : evaluate_in st condition = .ret c) :
    (c = 0 → ∀ k, execute_interpreter (k + 1) (NODE_WHILE condition body) st = .ret st) ∧
    (c ≠ 0 → ∀ k, execute_interpreter (k + 1) (NODE_WHILE condition body) st =
      (execute_interpreter k body st).bind fun st1 =>
        execute_interpreter k (NODE_WHILE condition body) st1) ∧
    (c ≠ 0 → ∀ r,
      Outcome (fun k => execute_interpreter k (NODE_WHILE condition body) st) r ↔
      Outcome (fun k => (execute_interpreter k body st).bind fun st1 =>
        execute_interpreter k (NODE_WHILE condition body) st1) r) := by
  have hzero : c = 0 → ∀ k,
      execute_interpreter (k + 1) (NODE_WHILE condition body) st = .ret st := by
    intro h k
    rw [execute_interpreter]
    simp [hc, Result.bind, h]
  have hstep : c ≠ 0 → ∀ k, execute_interpreter (k + 1) (NODE_WHILE condition body) st =
      (execute_interpreter k body st).bind fun st1 =>
        execute_interpreter k (NODE_WHILE condition body) st1 := by
    intro h k
    rw [execute_interpreter]
    simp [hc, Result.bind, h]
  refine ⟨hzero, hstep, ?_⟩
  intro h r
  constructor
  · rintro ⟨hr, k, hk⟩
    refine ⟨hr, ?_⟩
    cases k with
    | zero => exact absurd hk.symm hr
    | succ k => exact ⟨k, (hstep h k).symm.trans hk⟩
  · rintro ⟨hr, k, hk⟩
    exact ⟨hr, k + 1, (hstep h k).trans hk⟩

theorem while_unfolding_witness :
    evaluate_in ⟨[⟨"i", 4⟩], [30]⟩ (NODE_BINARY_OP "<" (NODE_IDENTIFIER "i") (NODE_NUMBER "5"))
      = .ret 1 ∧
    execute_interpreter 4
        (NODE_WHILE (NODE_BINARY_OP "<" (NODE_IDENTIFIER "i") (NODE_NUMBER "5"))
          (NODE_BLOCK [NODE_PRINT (NODE_IDENTIFIER "i"),
            NODE_ASSIGN "i" (NODE_BINARY_OP "+" (NODE_IDENTIFIER "i") (NODE_NUMBER "1"))]))
        ⟨[⟨"i", 4⟩], [30]⟩
      = (execute_interpreter 3
          (NODE_BLOCK [NODE_PRINT (NODE_IDENTIFIER "i"),
            NODE_ASSIGN "i" (NODE_BINARY_OP "+" (NODE_IDENTIFIER "i") (NODE_NUMBER "1"))])
          ⟨[⟨"i", 4⟩], [30]⟩).bind fun st1 =>
        execute_interpreter 3
          (NODE_WHILE (NODE_BINARY_OP "<" (NODE_IDENTIFIER "i") (NODE_NUMBER "5"))
            (NODE_BLOCK [NODE_PRINT (NODE_IDENTIFIER "i"),
              NODE_ASSIGN "i" (NODE_BINARY_OP "+" (NODE_IDENTIFIER "i") (NODE_NUMBER "1"))]))
          st1 :=
  ⟨by decide!,
   (while_unfolding (NODE_BINARY_OP "<" (NODE_IDENTIFIER "i") (NODE_NUMBER "5"))
      (NODE_BLOCK [NODE_PRINT (NODE_IDENTIFIER "i"),
        NODE_ASSIGN "i" (NODE_BINARY_OP "+" (NODE_IDENTIFIER "i") (NODE_NUMBER "1"))])
      ⟨[⟨"i", 4⟩], [30]⟩ 1 (by decide!)).2.1 (by decide) 3⟩

/-! ## The lexer in terms of the remaining input -/

theorem skip_whitespace_eq (rest : List Char) (pos line : Nat) :
    skip_whitespace rest pos line =
      (pos + (rest.takeWhile isspace).length, line + (rest.takeWhile isspace).count '\n') := by
  induction rest generalizing pos line with
  | nil => simp [skip_whitespace]
  | cons c cs ih =>
    unfold skip_whitespace
    by_cases hc : isspace c = true
    · simp only [hc, if_true, ih, List.takeWhile_cons, List.length_cons, List.count_cons]
      by_cases hn : c = '\n'
      · subst hn; simp; omega
      · simp [hn]; omega
    · simp [hc]

theorem drop_skipped (lx : Lexer) :
    lx.source_code.drop (lx.current_pos + lx.blank.length) = lx.body := by
  rw [← List.drop_drop]
  unfold Lexer.body Lexer.blank Lexer.rest
  generalize lx.source_code.drop lx.current_pos = r
  induction r with
  | nil => simp
  | cons c cs ih =>
    by_cases hc : isspace c = true
    · simp [hc, ih]
    · simp [hc]

/-- What `get_next_token` returns, in terms of the input after the white space. -/
theorem get_next_token_eq (lx : Lexer) :
    get_next_token lx =
      (token_at lx.body lx.skipped.current_line).bind fun r =>
        .ret (r.1, ⟨lx.source_code, lx.skipped.current_pos + r.2, lx.skipped.current_line⟩) := by
  unfold get_next_token
  rw [skip_whitespace_eq]
  simp only
  have hd := drop_skipped lx
  unfold Lexer.blank Lexer.rest at hd
  rw [hd]
  unfold Lexer.skipped Lexer.blank Lexer.rest
  simp only
  cases hb : lx.body with
  | nil => simp [token_at, Result.bind]
  | cons c cs =>
    simp only [token_at]
    split
    · split
      · simp [Result.bind]
      · simp [Result.bind]
    · split
      · split
        · simp [Result.bind]
        · simp [Result.bind]
      · cases hs : single_character_token c cs.head? with
        | none => simp [Result.bind]
        | some v => 
          obtain ⟨ty, value, extra⟩ := v
          simp [Result.bind, Nat.add_assoc]

theorem keyword_type_ne_eof (v : String) : keyword_type v ≠ TOKEN_EOF := by
  unfold keyword_type
  split_ifs <;> simp

/-- What the `switch` of `get_next_token` accepts: the lexeme is the character, or `==`. -/
theorem single_character_token_spec {ch : Char} {next : Option Char} {ty : TokenType}
    {value : String} {extra : Nat} (h : single_character_token ch next = some (ty, value, extra)) :
    ty ≠ TOKEN_EOF ∧ ch ≠ '\n' ∧ isspace ch = false ∧
    ((extra = 0 ∧ value = String.mk [ch]) ∨
     (extra = 1 ∧ value = "==" ∧ ch = '=' ∧ next = some '=')) := by
  unfold single_character_token at h
  by_cases h0 : ch = '+'
  · rw [if_pos h0] at h; cases h; subst h0
    exact ⟨by decide, by decide, by decide, Or.inl ⟨rfl, by decide⟩⟩
  rw [if_neg h0] at h
  by_cases h1 : ch = '-'
  · rw [if_pos h1] at h; cases h; subst h1
    exact ⟨by decide, by decide, by decide, Or.inl ⟨rfl, by decide⟩⟩
  rw [if_neg h1] at h
  by_cases h2 : ch = '*'
  · rw [if_pos h2] at h; cases h; subst h2
    exact ⟨by decide, by decide, by decide, Or.inl ⟨rfl, by decide⟩⟩
  rw [if_neg h2] at h
  by_cases h3 : ch = '/'
  · rw [if_pos h3] at h; cases h; subst h3
    exact ⟨by decide, by decide, by decide, Or.inl ⟨rfl, by decide⟩⟩
  rw [if_neg h3] at h
  by_cases h4 : ch = '='
  · rw [if_pos h4] at h
    by_cases hn : next = some '='
    · rw [if_pos hn] at h; cases h; subst h4
      exact ⟨by decide, by decide, by decide, Or.inr ⟨rfl, rfl, rfl, hn⟩⟩
    · rw [if_neg hn] at h; cases h; subst h4
      exact ⟨by decide, by decide, by decide, Or.inl ⟨rfl, by decide⟩⟩
  rw [if_neg h4] at h
  by_cases h5 : ch = '<'
  · rw [if_pos h5] at h; cases h; subst h5
    exact ⟨by decide, by decide, by decide, Or.inl ⟨rfl, by decide⟩⟩
  rw [if_neg h5] at h
  by_cases h6 : ch = '>'
  · rw [if_pos h6] at h; cases h; subst h6
    exact ⟨by decide, by decide, by decide, Or.inl ⟨rfl, by decide⟩⟩
  rw [if_neg h6] at h
  by_cases h7 : ch = ';'
  · rw [if_pos h7] at h; cases h; subst h7
    exact ⟨by decide, by decide, by decide, Or.inl ⟨rfl, by decide⟩⟩
  rw [if_neg h7] at h
  by_cases h8 : ch = '('
  · rw [if_pos h8] at h; cases h; subst h8
    exact ⟨by decide, by decide, by decide, Or.inl ⟨rfl, by decide⟩⟩
  rw [if_neg h8] at h
  by_cases h9 : ch = ')'
  · rw [if_pos h9] at h; cases h; subst h9
    exact ⟨by decide, by decide, by decide, Or.inl ⟨rfl, by decide⟩⟩
  rw [if_neg h9] at h
  by_cases h10 : ch = '\x7b'
  · rw [if_pos h10] at h; cases h; subst h10
    exact ⟨by decide, by decide, by decide, Or.inl ⟨rfl, by decide⟩⟩
  rw [if_neg h10] at h
  by_cases h11 : ch = '\x7d'
  · rw [if_pos h11] at h; cases h; subst h11
    exact ⟨by decide, by decide, by decide, Or.inl ⟨rfl, by decide⟩⟩
  rw [if_neg h11] at h
  cases h

theorem isspace_newline : isspace '\n' = true := by decide

theorem run_spec (p : Char → Bool) (hp : p '\n' = false) (c : Char) (cs : List Char)
    (hc : p c = true) :
    1 ≤ ((c :: cs).takeWhile p).length ∧
    ((c :: cs).takeWhile p).length ≤ (c :: cs).length ∧
    (c :: cs).take ((c :: cs).takeWhile p).length = (c :: cs).takeWhile p ∧
    ((c :: cs).takeWhile p).count '\n' = 0 := by
  refine ⟨by simp [List.takeWhile_cons, hc], (List.takeWhile_prefix p).length_le, ?_, ?_⟩
  · exact (List.prefix_iff_eq_take.mp (List.takeWhile_prefix p)).symm
  · rw [List.count_eq_zero]
    intro hmem
    have := List.mem_takeWhile_imp hmem
    rw [hp] at this
    exact absurd this (by simp)

/-- Properties of a token read by `get_next_token`: its line, when it is EOF, how many
characters it consumes, and that its lexeme is the text consumed. -/
theorem token_at_spec {body : List Char} {line : Nat} {t : Token} {n : Nat}
    (h : token_at body line = .ret (t, n)) :
    t.line = line ∧ (t.type = TOKEN_EOF ↔ body = []) ∧ n ≤ body.length ∧
    (body.take n).count '\n' = 0 ∧
    (t.type ≠ TOKEN_EOF → 1 ≤ n ∧ t.value.data = body.take n) := by
  cases body with
  | nil =>
    simp only [token_at] at h
    cases h
    simp
  | cons c cs =>
    unfold token_at at h
    by_cases hd : isdigit c = true
    · simp only [hd, if_true] at h
      by_cases hv : VALUE_SIZE ≤ (List.takeWhile isdigit (c :: cs)).length
      · rw [if_pos hv] at h; cases h
      · rw [if_neg hv] at h
        cases h
        obtain ⟨r1, r2, r3, r4⟩ := run_spec isdigit (by decide) c cs hd
        refine ⟨rfl, by simp, r2, by rw [r3]; exact r4, fun _ => ⟨r1, r3.symm⟩⟩
    · simp only [hd] at h
      by_cases ha : (isalpha c || c = '_') = true
      · simp only [ha, if_true] at h
        by_cases hv : VALUE_SIZE ≤ (List.takeWhile (fun d => isalnum d || d = '_') (c :: cs)).length
        · rw [if_pos hv] at h; cases h
        · rw [if_neg hv] at h
          cases h
          obtain ⟨r1, r2, r3, r4⟩ :=
            run_spec (fun d => isalnum d || d = '_') (by decide) c cs
              (by
                simp only [Bool.or_eq_true, decide_eq_true_eq] at ha ⊢
                rcases ha with ha | ha
                · exact Or.inl (by simp [isalnum, ha])
                · exact Or.inr ha)
          refine ⟨rfl, ?_, r2, by rw [r3]; exact r4, fun _ => ⟨r1, r3.symm⟩⟩
          simp [keyword_type_ne_eof]
      · simp only [ha] at h
        cases hs : single_character_token c cs.head? with
        | none => rw [hs] at h; cases h
        | some v =>
          obtain ⟨ty, value, extra⟩ := v
          rw [hs] at h
          cases h
          obtain ⟨s1, s2, s3, s4⟩ := single_character_token_spec hs
          rcases s4 with ⟨e0, hv⟩ | ⟨e1, hv, hc, hn⟩
          · subst e0 hv
            refine ⟨rfl, by simp [s1], by simp, ?_, fun _ => ⟨by simp, by simp⟩⟩
            simp [List.count_cons, s2]
          · subst e1 hv hc
            cases cs with
            | nil => simp at hn
            | cons d ds =>
              simp only [List.head?_cons, Option.some.injEq] at hn
              subst hn
              refine ⟨rfl, by simp [s1], by simp, by simp [List.count_cons], fun _ => ⟨by simp, by simp⟩⟩

theorem get_next_token_ret {lx lx1 : Lexer} {t : Token}
    (h : get_next_token lx = .ret (t, lx1)) :
    ∃ n, token_at lx.body lx.skipped.current_line = .ret (t, n) ∧
      lx1 = ⟨lx.source_code, lx.skipped.current_pos + n, lx.skipped.current_line⟩ := by
  rw [get_next_token_eq] at h
  cases ht : token_at lx.body lx.skipped.current_line with
  | ret r =>
    rw [ht] at h
    simp only [Result.bind] at h
    cases h
    exact ⟨r.2, rfl, rfl⟩
  | fail e => rw [ht] at h; simp [Result.bind] at h
  | div => rw [ht] at h; simp [Result.bind] at h

theorem rest_eq_blank_body (lx : Lexer) : lx.rest = lx.blank ++ lx.body :=
  (List.takeWhile_append_dropWhile isspace lx.rest).symm

theorem rest_length (lx : Lexer) (h : lx.current_pos ≤ lx.source_code.length) :
    lx.current_pos + lx.blank.length + lx.body.length = lx.source_code.length := by
  have h1 : lx.rest.length = lx.source_code.length - lx.current_pos := by
    simp [Lexer.rest]
  have h2 := congrArg List.length (rest_eq_blank_body lx)
  rw [List.length_append] at h2
  omega

/-- The part of the source before position `pos + blank + n`. -/
theorem take_consumed (lx : Lexer) (n : Nat) :
    lx.source_code.take (lx.current_pos + lx.blank.length + n) =
      lx.source_code.take lx.current_pos ++ lx.blank ++ lx.body.take n := by
  have h1 : lx.source_code.take (lx.current_pos + (lx.blank.length + n)) =
      lx.source_code.take lx.current_pos ++ lx.rest.take (lx.blank.length + n) := by
    rw [List.take_add]; rfl
  rw [Nat.add_assoc, h1, rest_eq_blank_body, List.take_append, List.append_assoc]

theorem line_invariant_step {lx lx1 : Lexer} {t : Token} (hinv : line_invariant lx)
    (h : get_next_token lx = .ret (t, lx1)) :
    line_invariant lx1 ∧
    t.line = 1 + (lx.source_code.take (lx.current_pos + lx.blank.length)).count '\n' ∧
    lx1.source_code = lx.source_code ∧
    (t.type = TOKEN_EOF →
      lx.source_code.length ≤ lx.current_pos + lx.blank.length ∨
      lx.source_code.length < lx.current_pos) ∧
    (t.type ≠ TOKEN_EOF →
      lx1.current_pos = lx.current_pos + lx.blank.length + t.value.length ∧
      t.value.data = (lx.source_code.drop (lx.current_pos + lx.blank.length)).take
        t.value.length) := by
  obtain ⟨n, ht, hl⟩ := get_next_token_ret h
  obtain ⟨s1, s2, s3, s4, s5⟩ := token_at_spec ht
  unfold line_invariant at hinv
  have hline : lx.skipped.current_line =
      1 + (lx.source_code.take (lx.current_pos + lx.blank.length)).count '\n' := by
    have := take_consumed lx 0
    simp only [Nat.add_zero, List.take_zero, List.append_nil] at this
    rw [this, List.count_append]
    simp only [Lexer.skipped]
    omega
  subst hl
  refine ⟨?_, by rw [s1, hline], rfl, ?_, ?_⟩
  · unfold line_invariant
    simp only [Lexer.skipped]
    rw [take_consumed, List.count_append, List.count_append, s4]
    omega
  · intro he
    have hb := s2.mp he
    by_cases hp : lx.current_pos ≤ lx.source_code.length
    · have := rest_length lx hp
      rw [hb] at this
      simp at this
      exact Or.inl (by omega)
    · exact Or.inr (by omega)
  · intro hne
    obtain ⟨s6, s7⟩ := s5 hne
    have hlen : t.value.length = n := by
      show t.value.data.length = n
      rw [s7, List.length_take]
      omega
    refine ⟨by simp [Lexer.skipped, hlen], ?_⟩
    rw [hlen, s7, drop_skipped]

theorem line_invariant_after (n : Nat) :
    ∀ (lx lx1 : Lexer), line_invariant lx → lexer_after n lx = .ret lx1 →
      line_invariant lx1 ∧ lx1.source_code = lx.source_code := by
  induction n with
  | zero =>
    intro lx lx1 hinv h
    simp only [lexer_after] at h
    cases h
    exact ⟨hinv, rfl⟩
  | succ n ih =>
    intro lx lx1 hinv h
    unfold lexer_after at h
    cases hg : get_next_token lx with
    | ret r =>
      rw [hg] at h
      have hs := line_invariant_step hinv (show get_next_token lx = .ret (r.1, r.2) from hg)
      have := ih r.2 lx1 hs.1 h
      exact ⟨this.1, this.2.trans hs.2.2.1⟩
    | fail e => rw [hg] at h; simp [Result.bind] at h
    | div => rw [hg] at h; simp [Result.bind] at h

/-- C13 (the code differs for long lexemes): the lexer keeps
`current_line = 1 + (newlines in source[0 .. current_pos))`.  The invariant holds after
`lexer_init`, every call of `get_next_token` that returns a token within its buffer
preserves it, so it holds after any number of such calls; and the token returned in a
state with the invariant carries the line of the position where it starts, one plus the
number of newlines before the first character after the white space (for the EOF token
that position is the end of input).  For a run of 100 or more digits or identifier
characters the copy loop writes past `token.value`, into `token.line`, which was
assigned before the copy: undefined behaviour, and no token with the line of its start. -/
theorem token_line_invariant (code : List Char) (n : Nat) (lx lx1 : Lexer) (t : Token)
    (hn : lexer_after n (lexer_init code) = .ret lx)
    (h : get_next_token lx = .ret (t, lx1)) :
    line_invariant (lexer_init code) ∧ line_invariant lx ∧ line_invariant lx1 ∧
    t.line = 1 + (code.take (lx.current_pos + lx.blank.length)).count '\n' ∧
    (t.type = TOKEN_EOF → t.line = 1 + code.count '\n') ∧
    (t.type ≠ TOKEN_EOF →
      lx1.current_pos = lx.current_pos + lx.blank.length + t.value.length ∧
      t.value.data = (code.drop (lx.current_pos + lx.blank.length)).take t.value.length) ∧
    get_next_token (lexer_init (List.replicate 100 'a')) = .fail .undefined_behaviour ∧
    get_next_token (lexer_init (List.replicate 100 '7')) = .fail .undefined_behaviour := by
  have h0 : line_invariant (lexer_init code) := by
    simp [line_invariant, lexer_init]
  obtain ⟨h1, hsrc⟩ := line_invariant_after n _ _ h0 hn
  have hcode : lx.source_code = code := hsrc
  obtain ⟨a, b, _, d, e⟩ := line_invariant_step h1 h
  rw [hcode] at b d e
  refine ⟨h0, h1, a, b, ?_, e, by decide!, by decide!⟩
  intro he
  rw [b]
  rcases d he with hd | hd
  · rw [List.take_of_length_le hd]
  · rw [List.take_of_length_le (by omega)]

theorem token_line_invariant_witness :
    lexer_after 1 (lexer_init "a\n b".toList) = .ret ⟨"a\n b".toList, 1, 1⟩ ∧
    get_next_token ⟨"a\n b".toList, 1, 1⟩
      = .ret (⟨TOKEN_IDENTIFIER, "b", 2⟩, ⟨"a\n b".toList, 4, 2⟩) ∧
    line_invariant ⟨"a\n b".toList, 4, 2⟩ :=
  ⟨by decide!, by decide!,
   (token_line_invariant "a\n b".toList 1 ⟨"a\n b".toList, 1, 1⟩ ⟨"a\n b".toList, 4, 2⟩
      ⟨TOKEN_IDENTIFIER, "b", 2⟩ (by decide!) (by decide!)).2.2.1⟩

theorem body_eq_nil_iff (lx : Lexer) : lx.body = [] ↔ ∀ c ∈ lx.rest, isspace c = true := by
  unfold Lexer.body
  rw [List.dropWhile_eq_nil_iff]

theorem get_next_token_eof {lx : Lexer} (hb : lx.body = []) :
    get_next_token lx = .ret (⟨TOKEN_EOF, "EOF", lx.skipped.current_line⟩, lx.skipped) := by
  rw [get_next_token_eq, hb]
  simp [token_at, Result.bind, Lexer.skipped]

theorem skipped_of_eof {lx : Lexer} (hb : lx.body = []) : lx.skipped.skipped = lx.skipped ∧
    lx.skipped.body = [] := by
  have hrest : lx.skipped.rest = [] := by
    have := drop_skipped lx
    rw [hb] at this
    exact this
  have hblank : lx.skipped.blank = [] := by simp [Lexer.blank, hrest]
  refine ⟨?_, by simp [Lexer.body, hrest]⟩
  show (⟨_, _, _⟩ : Lexer) = _
  rw [hblank]
  rfl

/-- C14: once `get_next_token` has returned an EOF token, the next call returns the same
token (kind, lexeme and line) and leaves the cursor and the line counter as they are,
and so does every further call; and whenever only white space remains from the cursor to
the end of input, `get_next_token` returns the EOF token. -/
theorem eof_token_repeats (lx lx1 : Lexer) (t : Token)
    (h : get_next_token lx = .ret (t, lx1)) (ht : t.type = TOKEN_EOF) :
    get_next_token lx1 = .ret (t, lx1) ∧
    (∀ n, lexer_after n lx1 = .ret lx1) ∧
    t = ⟨TOKEN_EOF, "EOF", lx1.current_line⟩ ∧
    (∀ l : Lexer, (∀ c ∈ l.rest, isspace c = true) →
      ∃ l1, get_next_token l = .ret (⟨TOKEN_EOF, "EOF", l1.current_line⟩, l1)) := by
  obtain ⟨n, hta, hl⟩ := get_next_token_ret h
  have hb : lx.body = [] := (token_at_spec hta).2.1.mp ht
  have h2 := get_next_token_eof hb
  rw [h] at h2
  cases h2
  obtain ⟨hs, hb2⟩ := skipped_of_eof hb
  have hagain : get_next_token lx.skipped =
      .ret (⟨TOKEN_EOF, "EOF", lx.skipped.current_line⟩, lx.skipped) := by
    have := get_next_token_eof hb2
    rw [hs] at this
    exact this
  refine ⟨hagain, ?_, rfl, ?_⟩
  · intro n
    induction n with
    | zero => rfl
    | succ n ih =>
      unfold lexer_after
      rw [hagain]
      exact ih
  · intro l hl
    exact ⟨l.skipped, get_next_token_eof ((body_eq_nil_iff l).mpr hl)⟩

theorem eof_token_repeats_witness :
    get_next_token ⟨"x \n ".toList, 1, 1⟩
      = .ret (⟨TOKEN_EOF, "EOF", 2⟩, ⟨"x \n ".toList, 4, 2⟩) ∧
    get_next_token ⟨"x \n ".toList, 4, 2⟩
      = .ret (⟨TOKEN_EOF, "EOF", 2⟩, ⟨"x \n ".toList, 4, 2⟩) :=
  ⟨by decide!,
   (eof_token_repeats ⟨"x \n ".toList, 1, 1⟩ ⟨"x \n ".toList, 4, 2⟩ ⟨TOKEN_EOF, "EOF", 2⟩
      (by decide!) rfl).1⟩

/-! ## Progress of the lexer, identifiers and keywords -/

/-- Where the cursor is after a call of `get_next_token` that returned. -/
theorem get_next_token_cursor {lx lx1 : Lexer} {t : Token}
    (hpos : lx.current_pos ≤ lx.source_code.length)
    (h : get_next_token lx = .ret (t, lx1)) :
    lx1.source_code = lx.source_code ∧ lx.current_pos ≤ lx1.current_pos ∧
    lx1.current_pos ≤ lx.source_code.length ∧
    (t.type ≠ TOKEN_EOF → lx.current_pos < lx1.current_pos) := by
  obtain ⟨n, ht, hl⟩ := get_next_token_ret h
  obtain ⟨_, _, s3, _, s5⟩ := token_at_spec ht
  have hlen := rest_length lx hpos
  subst hl
  simp only [Lexer.skipped]
  refine ⟨trivial, by omega, by omega, fun hne => ?_⟩
  have := (s5 hne).1
  omega

/-- The outcomes of reading a token: a token, the write past the lexeme buffer, or the
message for an unknown character. -/
theorem token_at_outcome (body : List Char) (line : Nat) :
    (∃ r, token_at body line = .ret r) ∨ token_at body line = .fail .undefined_behaviour ∨
    ∃ c, token_at body line = .fail (.unknown_character c line) := by
  cases body with
  | nil => exact Or.inl ⟨_, rfl⟩
  | cons c cs =>
    unfold token_at
    by_cases hd : isdigit c = true
    · simp only [hd, if_true]
      by_cases hv : VALUE_SIZE ≤ (List.takeWhile isdigit (c :: cs)).length
      · rw [if_pos hv]; exact Or.inr (Or.inl rfl)
      · rw [if_neg hv]; exact Or.inl ⟨_, rfl⟩
    · simp only [hd]
      by_cases ha : (isalpha c || c = '_') = true
      · simp only [ha, if_true]
        by_cases hv : VALUE_SIZE ≤
            (List.takeWhile (fun d => isalnum d || d = '_') (c :: cs)).length
        · rw [if_pos hv]; exact Or.inr (Or.inl rfl)
        · rw [if_neg hv]; exact Or.inl ⟨_, rfl⟩
      · simp only [ha]
        cases hs : single_character_token c cs.head? with
        | none => exact Or.inr (Or.inr ⟨c, rfl⟩)
        | some v => exact Or.inl ⟨_, rfl⟩

/-- The faults of `get_next_token`: the message for an unknown character, or the write past
the lexeme buffer. -/
theorem get_next_token_fault {lx : Lexer} {e : Fault} (h : get_next_token lx = .fail e) :
    e.isLexError = true ∨ e = .undefined_behaviour := by
  rw [get_next_token_eq] at h
  rcases token_at_outcome lx.body lx.skipped.current_line with ⟨r, ht⟩ | ht | ⟨c, ht⟩
  · rw [ht] at h; simp [Result.bind] at h
  · rw [ht] at h; simp only [Result.bind] at h; cases h; exact Or.inr rfl
  · rw [ht] at h; simp only [Result.bind] at h; cases h; exact Or.inl rfl

theorem get_next_token_ne_div (lx : Lexer) : get_next_token lx ≠ .div := by
  rw [get_next_token_eq]
  rcases token_at_outcome lx.body lx.skipped.current_line with ⟨r, ht⟩ | ht | ⟨c, ht⟩ <;>
    rw [ht] <;> simp [Result.bind]

/-- The tokenization loop ends within `length - current_pos + 1` calls. -/
theorem lexical_analysis_ends (k : Nat) :
    ∀ lx : Lexer, lx.current_pos ≤ lx.source_code.length →
      lx.source_code.length - lx.current_pos < k →
      (∃ init eof, lexical_analysis k lx = .ret (init ++ [eof]) ∧ eof.type = TOKEN_EOF ∧
        (∀ t ∈ init, t.type ≠ TOKEN_EOF) ∧
        init.length ≤ lx.source_code.length - lx.current_pos) ∨
      (∃ e, lexical_analysis k lx = .fail e ∧
        (e.isLexError = true ∨ e = .undefined_behaviour)) := by
  induction k with
  | zero => intro lx _ h; omega
  | succ k ih =>
    intro lx hpos hk
    unfold lexical_analysis
    cases hg : get_next_token lx with
    | div => exact absurd hg (get_next_token_ne_div lx)
    | fail e => exact Or.inr ⟨e, rfl, get_next_token_fault hg⟩
    | ret r =>
      obtain ⟨t, lx1⟩ := r
      obtain ⟨c1, c2, c3, c4⟩ := get_next_token_cursor hpos hg
      simp only [Result.bind]
      by_cases ht : t.type = TOKEN_EOF
      · left
        refine ⟨[], t, by simp [ht], ht, by simp, by simp⟩
      · have hlt := c4 ht
        have hlen : lx1.source_code.length = lx.source_code.length := by rw [c1]
        rcases ih lx1 (by omega) (by omega) with ⟨init, eof, h1, h2, h3, h4⟩ | ⟨e, h1, h2⟩
        · left
          refine ⟨t :: init, eof, by simp [ht, h1, Result.bind], h2, ?_, ?_⟩
          · intro u hu
            rcases List.mem_cons.mp hu with hu | hu
            · rw [hu]; exact ht
            · exact h3 u hu
          · simp only [List.length_cons]
            omega
        · right
          exact ⟨e, by simp [ht, h1, Result.bind], h2⟩

theorem isdigit_of_isalpha {c : Char} (h : isalpha c = true ∨ c = '_') : isdigit c = false := by
  rcases h with h | h
  · simp only [isalpha, Bool.or_eq_true, Bool.and_eq_true, decide_eq_true_eq] at h
    have h1 : ('a' : Char).toNat = 97 := by decide
    have h2 : ('z' : Char).toNat = 122 := by decide
    have h3 : ('A' : Char).toNat = 65 := by decide
    have h4 : ('Z' : Char).toNat = 90 := by decide
    have h5 : ('0' : Char).toNat = 48 := by decide
    have h6 : ('9' : Char).toNat = 57 := by decide
    rw [h1, h2, h3, h4] at h
    simp only [isdigit, Bool.and_eq_false_iff, decide_eq_false_iff_not, h5, h6]
    omega
  · subst h; decide

/-- The keyword check: each keyword kind for exactly its word, IDENTIFIER otherwise. -/
theorem keyword_type_spec (v : String) :
    (keyword_type v = TOKEN_IF ↔ v = "if") ∧
    (keyword_type v = TOKEN_ELSE ↔ v = "else") ∧
    (keyword_type v = TOKEN_WHILE ↔ v = "while") ∧
    (keyword_type v = TOKEN_PRINT ↔ v = "print") ∧
    (keyword_type v = TOKEN_INT ↔ v = "int") ∧
    (keyword_type v = TOKEN_IDENTIFIER ↔ v ∉ ["if", "else", "while", "print", "int"]) := by
  unfold keyword_type
  by_cases h1 : v = "if"
  · subst h1; decide
  by_cases h2 : v = "else"
  · subst h2; decide
  by_cases h3 : v = "while"
  · subst h3; decide
  by_cases h4 : v = "print"
  · subst h4; decide
  by_cases h5 : v = "int"
  · subst h5; decide
  simp [h1, h2, h3, h4, h5]

/-- C12 (the code differs for long lexemes): when the first character after the white space
is a letter or an underscore, the lexeme is the maximal run of letters, digits and
underscores from there, the cursor ends just past it, and the kind is IF, ELSE, WHILE,
PRINT or INT exactly for the lexemes `if`, `else`, `while`, `print`, `int` and IDENTIFIER
otherwise, as long as the run has fewer than 100 characters.  With a run of 100 or more
characters the copy loop writes past `token.value`: undefined behaviour, no token. -/
theorem identifier_or_keyword_token (lx : Lexer) (c : Char) (cs : List Char)
    (hb : lx.body = c :: cs) (hc : isalpha c = true ∨ c = '_') :
    ((List.takeWhile (fun d => isalnum d || d = '_') (c :: cs)).length < VALUE_SIZE →
      get_next_token lx = .ret
        (⟨keyword_type (String.mk (List.takeWhile (fun d => isalnum d || d = '_') (c :: cs))),
          String.mk (List.takeWhile (fun d => isalnum d || d = '_') (c :: cs)),
          lx.current_line + lx.blank.count '\n'⟩,
         ⟨lx.source_code,
          lx.current_pos + lx.blank.length +
            (List.takeWhile (fun d => isalnum d || d = '_') (c :: cs)).length,
          lx.current_line + lx.blank.count '\n'⟩)) ∧
    (VALUE_SIZE ≤ (List.takeWhile (fun d => isalnum d || d = '_') (c :: cs)).length →
      get_next_token lx = .fail .undefined_behaviour) ∧
    (c :: cs = List.takeWhile (fun d => isalnum d || d = '_') (c :: cs) ++
        List.dropWhile (fun d => isalnum d || d = '_') (c :: cs) ∧
      ∀ d, (List.dropWhile (fun d => isalnum d || d = '_') (c :: cs)).head? = some d →
        (isalnum d || d = '_') = false) ∧
    (∀ v, (keyword_type v = TOKEN_IF ↔ v = "if") ∧
      (keyword_type v = TOKEN_ELSE ↔ v = "else") ∧
      (keyword_type v = TOKEN_WHILE ↔ v = "while") ∧
      (keyword_type v = TOKEN_PRINT ↔ v = "print") ∧
      (keyword_type v = TOKEN_INT ↔ v = "int") ∧
      (keyword_type v = TOKEN_IDENTIFIER ↔ v ∉ ["if", "else", "while", "print", "int"])) ∧
    (keyword_type "iff" = TOKEN_IDENTIFIER ∧ keyword_type "int_" = TOKEN_IDENTIFIER ∧
      keyword_type "If" = TOKEN_IDENTIFIER ∧ keyword_type "while1" = TOKEN_IDENTIFIER) ∧
    get_next_token (lexer_init (List.replicate 100 'a')) = .fail .undefined_behaviour := by
  have hd := isdigit_of_isalpha hc
  have ha : (isalpha c || decide (c = '_')) = true := by
    rcases hc with h | h
    · simp [h]
    · simp [h]
  refine ⟨?_, ?_, ⟨(List.takeWhile_append_dropWhile _ _).symm, ?_⟩, keyword_type_spec,
    by decide, by decide!⟩
  · intro hlen
    rw [get_next_token_eq, hb]
    unfold token_at
    simp only [hd, ha, if_true, Bool.false_eq_true, if_false]
    rw [if_neg (by omega)]
    simp [Result.bind, Lexer.skipped]
  · intro hlen
    rw [get_next_token_eq, hb]
    unfold token_at
    simp only [hd, ha, if_true, Bool.false_eq_true, if_false]
    rw [if_pos hlen]
    rfl
  · intro d hd
    have := List.head?_dropWhile_not (fun d => isalnum d || decide (d = '_')) (c :: cs)
    rw [hd] at this
    simpa using this

theorem identifier_or_keyword_token_witness :
    Lexer.body ⟨"x = while1 + 2".toList, 3, 1⟩ = "while1 + 2".toList ∧
    get_next_token ⟨"x = while1 + 2".toList, 3, 1⟩
      = .ret (⟨TOKEN_IDENTIFIER, "while1", 1⟩, ⟨"x = while1 + 2".toList, 10, 1⟩) :=
  ⟨by decide!,
   (identifier_or_keyword_token ⟨"x = while1 + 2".toList, 3, 1⟩ 'w' "hile1 + 2".toList
      (by decide!) (Or.inl (by decide))).1 (by decide!)⟩

/-- C20 (the code differs for long lexemes): a call of `get_next_token` that returns a
non-EOF token from a cursor inside the source leaves the cursor strictly further and
still inside the source, so the tokenization loop of `main` ends within
`length(source) + 1` calls with at most `length(source)` non-EOF tokens.  It ends with the
EOF token or with the message for an unknown character, or, for a run of 100 or more
digits or identifier characters, with the write past the lexeme buffer (undefined
behaviour) that the claim does not allow for. -/
theorem lexer_progress (lx lx1 : Lexer) (t : Token)
    (hpos : lx.current_pos ≤ lx.source_code.length)
    (h : get_next_token lx = .ret (t, lx1)) (ht : t.type ≠ TOKEN_EOF) :
    lx.current_pos < lx1.current_pos ∧ lx1.current_pos ≤ lx1.source_code.length ∧
    lx1.source_code = lx.source_code ∧
    (∀ (code : List Char) (j : Nat),
      (∃ init eof, lexical_analysis (code.length + 1 + j) (lexer_init code)
          = .ret (init ++ [eof]) ∧
        eof.type = TOKEN_EOF ∧ (∀ u ∈ init, u.type ≠ TOKEN_EOF) ∧
        init.length ≤ code.length) ∨
      (∃ e, lexical_analysis (code.length + 1 + j) (lexer_init code) = .fail e ∧
        (e.isLexError = true ∨ e = .undefined_behaviour))) ∧
    lexical_analysis 101 (lexer_init (List.replicate 100 'a')) = .fail .undefined_behaviour := by
  obtain ⟨c1, _, c3, c4⟩ := get_next_token_cursor hpos h
  refine ⟨c4 ht, by rw [c1]; exact c3, c1, ?_, by decide!⟩
  intro code j
  have := lexical_analysis_ends (code.length + 1 + j) (lexer_init code)
    (by simp [lexer_init]) (by simp [lexer_init]; omega)
  simpa [lexer_init] using this

theorem lexer_progress_witness :
    get_next_token ⟨"x = while1 + 2".toList, 3, 1⟩
      = .ret (⟨TOKEN_IDENTIFIER, "while1", 1⟩, ⟨"x = while1 + 2".toList, 10, 1⟩) ∧
    3 < 10 ∧ 10 ≤ "x = while1 + 2".toList.length :=
  ⟨by decide!,
   (lexer_progress ⟨"x = while1 + 2".toList, 3, 1⟩ ⟨"x = while1 + 2".toList, 10, 1⟩
      ⟨TOKEN_IDENTIFIER, "while1", 1⟩ (by decide) (by decide!) (by decide)).1,
   (lexer_progress ⟨"x = while1 + 2".toList, 3, 1⟩ ⟨"x = while1 + 2".toList, 10, 1⟩
      ⟨TOKEN_IDENTIFIER, "while1", 1⟩ (by decide) (by decide!) (by decide)).2.1⟩

/-! ## Division -/

theorem tdiv_sign_natAbs (a b : Int) :
    Int.tdiv a b = Int.sign a * Int.sign b * ((a.natAbs / b.natAbs : Nat) : Int) := by
  rcases Int.natAbs_eq a with ha | ha <;> rcases Int.natAbs_eq b with hb | hb
  all_goals
    generalize a.natAbs = m at ha
    generalize b.natAbs = n at hb
    subst ha; subst hb
    rcases Nat.eq_zero_or_pos m with hm | hm <;> rcases Nat.eq_zero_or_pos n with hn | hn
    all_goals first
      | (subst hm; simp)
      | (subst hn; simp)
      | skip
  all_goals
    have hm1 : (0 : Int) < m := by exact_mod_cast hm
    have hn1 : (0 : Int) < n := by exact_mod_cast hn
    simp [Int.sign_eq_one_of_pos hm1, Int.sign_eq_one_of_pos hn1, Int.sign_neg, Int.natAbs_neg,
      Int.tdiv_neg, Int.neg_tdiv, Int.ofNat_tdiv]
    exact Int.tdiv_eq_ediv (le_of_lt hm1) (le_of_lt hn1)

/-- C11: for a `/` node whose operands evaluate to `l` and `r` with `r` nonzero and the
quotient in the range of `int`, `evaluate_expression` returns the quotient truncated
toward zero: its magnitude is `|l| / |r|` rounded down and its sign is the product of the
signs of `l` and `r`.  The expression `(0 - 7) / 2` evaluates to -3. -/
theorem division_truncates_toward_zero (symbol_table : List Symbol) (l r : ASTNode)
    (vl vr : Int)
    (hl : evaluate_expression symbol_table l = .ret vl)
    (hr : evaluate_expression symbol_table r = .ret vr)
    (hz : vr ≠ 0)
    (hrange : INT_MIN ≤ Int.tdiv vl vr ∧ Int.tdiv vl vr ≤ INT_MAX) :
    evaluate_expression symbol_table (NODE_BINARY_OP "/" l r) = .ret (Int.tdiv vl vr) ∧
    Int.tdiv vl vr = Int.sign vl * Int.sign vr * ((vl.natAbs / vr.natAbs : Nat) : Int) ∧
    (∀ j, (parse_expression_source (8 + j) "(0 - 7) / 2").bind
        (fun e => evaluate_expression [] e.1) = .ret (-3)) := by
  refine ⟨?_, tdiv_sign_natAbs vl vr, fun j => ?_⟩
  · simp [evaluate_expression, hl, hr, Result.bind, apply_operator, hz, int_result, hrange]
  · have h8 : parse_expression_source 8 "(0 - 7) / 2" =
        .ret (NODE_BINARY_OP "/" (NODE_BINARY_OP "-" (NODE_NUMBER "0") (NODE_NUMBER "7"))
          (NODE_NUMBER "2"), ⟨⟨"(0 - 7) / 2".toList, 11, 1⟩, ⟨TOKEN_EOF, "EOF", 1⟩⟩) := by
      decide!
    rw [parse_expression_source_stable h8 (by simp) j]
    decide!

theorem division_truncates_toward_zero_witness :
    evaluate_expression [⟨"x", -7⟩] (NODE_IDENTIFIER "x") = .ret (-7) ∧
    evaluate_expression [⟨"x", -7⟩] (NODE_NUMBER "2") = .ret 2 ∧
    evaluate_expression [⟨"x", -7⟩]
      (NODE_BINARY_OP "/" (NODE_IDENTIFIER "x") (NODE_NUMBER "2")) = .ret (Int.tdiv (-7) 2) ∧
    Int.tdiv (-7) 2 = -3 :=
  ⟨by decide!, by decide!,
   (division_truncates_toward_zero [⟨"x", -7⟩] (NODE_IDENTIFIER "x") (NODE_NUMBER "2") (-7) 2
      (by decide!) (by decide!) (by decide) (by decide)).1,
   by decide⟩

/-! ## Emitted text -/

theorem generate_statements_append (a b : List ASTNode) :
    generate_statements (a ++ b) = generate_statements a ++ generate_statements b := by
  induction a with
  | nil => simp [generate_statements]
  | cons x xs ih => simp [generate_statements, ih, String.append_assoc]

/-- C17: every Assign node is emitted as a fresh declaration, `    int name = text;` and a
newline, whatever precedes it: also as a statement anywhere in a Block, and so in the body
of a While.  The `i = i + 1;` of the sample loop is emitted as `    int i = (i + 1);`, as
the whole of `output.c` for the sample program shows. -/
theorem assign_emits_declaration :
    (∀ name e, generate_code (NODE_ASSIGN name e)
      = "    int " ++ name ++ " = " ++ generate_code e ++ ";\n") ∧
    (∀ pre post name e, generate_code (NODE_BLOCK (pre ++ NODE_ASSIGN name e :: post))
      = "\x7b\n" ++ (generate_statements pre ++
          ("    int " ++ name ++ " = " ++ generate_code e ++ ";\n") ++
          generate_statements post) ++ "\x7d\n") ∧
    (∀ c pre post name e,
      generate_code (NODE_WHILE c (NODE_BLOCK (pre ++ NODE_ASSIGN name e :: post)))
      = "    while (" ++ generate_code c ++ ") " ++
          ("\x7b\n" ++ (generate_statements pre ++
            ("    int " ++ name ++ " = " ++ generate_code e ++ ";\n") ++
            generate_statements post) ++ "\x7d\n")) ∧
    generate_code
        (NODE_ASSIGN "i" (NODE_BINARY_OP "+" (NODE_IDENTIFIER "i") (NODE_NUMBER "1")))
      = "    int i = (i + 1);\n" ∧
    (parse_source 14 sample_program).bind (fun ast => .ret (output_c ast)) =
      (.ret "#include <stdio.h>\n\nint main() \x7b\n\x7b\n    int x = 10;\n    int y = 20;\n    int sum = (x + y);\n    printf(\"%d\\n\", sum);\n    int i = 1;\n    while ((i < 5)) \x7b\n    printf(\"%d\\n\", i);\n    int i = (i + 1);\n\x7d\n    if ((sum > 25)) \x7b\n    printf(\"%d\\n\", 999);\n\x7d\n\x7d\n    return 0;\n\x7d\n"
        : Result Fault String) := by
  have h1 : ∀ name e, generate_code (NODE_ASSIGN name e)
      = "    int " ++ name ++ " = " ++ generate_code e ++ ";\n" := by
    intro name e; rw [generate_code]
  have h2 : ∀ pre post name e, generate_code (NODE_BLOCK (pre ++ NODE_ASSIGN name e :: post))
      = "\x7b\n" ++ (generate_statements pre ++
          ("    int " ++ name ++ " = " ++ generate_code e ++ ";\n") ++
          generate_statements post) ++ "\x7d\n" := by
    intro pre post name e
    rw [generate_code, generate_statements_append, generate_statements, h1,
      String.append_assoc (generate_statements pre)]
  refine ⟨h1, h2, ?_, by decide!, by decide!⟩
  intro c pre post name e
  rw [generate_code, h2]

theorem paren_depth_append (a b : List Char) :
    ∀ d, paren_depth (a ++ b) d = (paren_depth a d).bind fun d1 => paren_depth b d1 := by
  induction a with
  | nil => intro d; simp [paren_depth]
  | cons c cs ih =>
    intro d
    simp only [List.cons_append, paren_depth]
    by_cases h1 : c = '('
    · simp only [h1, if_true]
      exact ih (d + 1)
    · simp only [h1, if_false]
      by_cases h2 : c = ')'
      · simp only [h2, if_true]
        cases d with
        | zero => simp
        | succ d1 => exact ih d1
      · simp only [h2, if_false]
        exact ih d

theorem paren_free_depth {s : String} (h : paren_free s = true) :
    ∀ d, paren_depth s.data d = some d := by
  unfold paren_free at h
  generalize s.data = l at h
  induction l with
  | nil => intro d; rfl
  | cons c cs ih =>
    intro d
    rw [List.all_cons, Bool.and_eq_true] at h
    have hc := h.1
    simp only [Bool.and_eq_true, decide_eq_true_eq, ne_eq] at hc
    simp only [paren_depth, hc.1, hc.2, if_false]
    exact ih h.2 d

theorem paren_free_count {s : String} (h : paren_free s = true) :
    s.data.count '(' = 0 ∧ s.data.count ')' = 0 := by
  unfold paren_free at h
  rw [List.all_eq_true] at h
  constructor <;>
  · rw [List.count_eq_zero]
    intro hm
    have := h _ hm
    simp at this

theorem generate_code_depth :
    ∀ e : ASTNode, is_expression e = true → texts_paren_free e = true →
      (∀ d, paren_depth (generate_code e).data d = some d) ∧
      (generate_code e).data.count '(' = binary_ops e ∧
      (generate_code e).data.count ')' = binary_ops e
  | .NODE_NUMBER v, _, ht => by
    simp only [texts_paren_free] at ht
    rw [generate_code]
    exact ⟨paren_free_depth ht, (paren_free_count ht).1, (paren_free_count ht).2⟩
  | .NODE_IDENTIFIER v, _, ht => by
    simp only [texts_paren_free] at ht
    rw [generate_code]
    exact ⟨paren_free_depth ht, (paren_free_count ht).1, (paren_free_count ht).2⟩
  | .NODE_BINARY_OP v l r, he, ht => by
    simp only [is_expression, Bool.and_eq_true] at he
    simp only [texts_paren_free, Bool.and_eq_true] at ht
    obtain ⟨l1, l2, l3⟩ := generate_code_depth l he.1 ht.1.2
    obtain ⟨r1, r2, r3⟩ := generate_code_depth r he.2 ht.2
    have v1 := paren_free_depth ht.1.1
    obtain ⟨v2, v3⟩ := paren_free_count ht.1.1
    rw [generate_code]
    simp only [String.data_append, binary_ops]
    refine ⟨fun d => ?_, ?_, ?_⟩
    · simp [paren_depth_append, paren_depth, l1, r1, v1]
    · simp [List.count_append, List.count_cons, l2, r2, v2]
    · simp [List.count_append, List.count_cons, l3, r3, v3]
      omega
  | .NULL, he, _ => by simp [is_expression] at he
  | .NODE_ASSIGN _ _, he, _ => by simp [is_expression] at he
  | .NODE_PRINT _, he, _ => by simp [is_expression] at he
  | .NODE_IF _ _, he, _ => by simp [is_expression] at he
  | .NODE_WHILE _ _, he, _ => by simp [is_expression] at he
  | .NODE_BLOCK _, he, _ => by simp [is_expression] at he

/-! ## Block bodies -/

theorem Result.bind_eq_ret {ε α β : Type} {x : Result ε α} {f : α → Result ε β} {b : β}
    (h : x.bind f = .ret b) : ∃ a, x = .ret a ∧ f a = .ret b := by
  cases x with
  | ret a => exact ⟨a, rfl, h⟩
  | fail e => simp [Result.bind] at h
  | div => simp [Result.bind] at h

/-- The loop that reads a block body: either it stops at once at `}`, or it stores at
least one statement. -/
theorem parse_block_loop_grows (k : Nat) :
    ∀ (acc l : List ASTNode) (p q : Parser), parse_block_loop k acc p = .ret (l, q) →
      q.current_token.type = TOKEN_RBRACE ∧
      ((p.current_token.type = TOKEN_RBRACE ∧ l = acc ∧ q = p) ∨
       (p.current_token.type ≠ TOKEN_RBRACE ∧ acc.length < l.length)) := by
  induction k with
  | zero => intro acc l p q h; simp [parse_block_loop] at h
  | succ k ih =>
    intro acc l p q h
    unfold parse_block_loop at h
    by_cases hp : p.current_token.type = TOKEN_RBRACE
    · simp only [hp, ne_eq, not_true_eq_false, if_false] at h
      cases h
      exact ⟨hp, Or.inl ⟨hp, rfl, rfl⟩⟩
    · simp only [ne_eq, hp, not_false_eq_true, if_true] at h
      obtain ⟨r, _, h1⟩ := Result.bind_eq_ret h
      obtain ⟨acc1, hs, h2⟩ := Result.bind_eq_ret h1
      have hacc : acc1 = acc ++ [r.1] := by
        unfold store_statement at hs
        split at hs
        · cases hs
        · cases hs; rfl
      obtain ⟨hq, hcase⟩ := ih acc1 l r.2 q h2
      refine ⟨hq, Or.inr ⟨hp, ?_⟩⟩
      rcases hcase with ⟨_, hl, _⟩ | ⟨_, hl⟩
      · rw [hl, hacc]; simp
      · rw [hacc] at hl; simp at hl; omega

/-- C16 as stated fails: `while (1) { }` parses, and the body of its While node is a Block
without statements. -/
theorem empty_body_parses :
    parse_source 5 "while (1) \x7b \x7d"
      = .ret (NODE_BLOCK [NODE_WHILE (NODE_NUMBER "1") (NODE_BLOCK [])]) ∧
    has_empty_body (NODE_BLOCK [NODE_WHILE (NODE_NUMBER "1") (NODE_BLOCK [])]) = true := by
  decide!

/-- C16, amended: the body Block of an If or While node, read by the loop after `{`, is
empty exactly when the token after `{` is `}`, and then no token is read; a body whose
`{` is followed by any other token holds at least one statement when the parse returns.
The outermost Block is empty when the source has no statement. -/
theorem block_body_empty_iff (k : Nat) (p q : Parser) (l : List ASTNode)
    (h : parse_block_loop k [] p = .ret (l, q)) :
    (l = [] ↔ p.current_token.type = TOKEN_RBRACE) ∧
    (p.current_token.type ≠ TOKEN_RBRACE → 1 ≤ l.length) ∧
    (l = [] → q = p) ∧
    q.current_token.type = TOKEN_RBRACE ∧
    (∀ (n : Nat) (p0 : Parser), p0.current_token.type = TOKEN_EOF →
      parse_program (n + 1) p0 = .ret (NODE_BLOCK [], p0)) := by
  obtain ⟨hq, hcase⟩ := parse_block_loop_grows k [] l p q h
  refine ⟨?_, ?_, ?_, hq, ?_⟩
  · rcases hcase with ⟨h1, h2, _⟩ | ⟨h1, h2⟩
    · exact ⟨fun _ => h1, fun _ => h2⟩
    · constructor
      · intro hl; rw [hl] at h2; simp at h2
      · intro hp; exact absurd hp h1
  · intro hp
    rcases hcase with ⟨h1, _, _⟩ | ⟨_, h2⟩
    · exact absurd h1 hp
    · simp at h2; omega
  · intro hl
    rcases hcase with ⟨_, _, h3⟩ | ⟨_, h2⟩
    · exact h3
    · rw [hl] at h2; simp at h2
  · intro n p0 hp0
    simp [parse_program, parse_program_loop, hp0, Result.bind]

theorem block_body_empty_iff_witness :
    parse_block_loop 6 [] ⟨⟨"x = 1; \x7d".toList, 1, 1⟩, ⟨TOKEN_IDENTIFIER, "x", 1⟩⟩
      = .ret ([NODE_ASSIGN "x" (NODE_NUMBER "1")],
          ⟨⟨"x = 1; \x7d".toList, 8, 1⟩, ⟨TOKEN_RBRACE, "\x7d", 1⟩⟩) ∧
    1 ≤ [NODE_ASSIGN "x" (NODE_NUMBER "1")].length :=
  ⟨by decide!,
   (block_body_empty_iff 6 ⟨⟨"x = 1; \x7d".toList, 1, 1⟩, ⟨TOKEN_IDENTIFIER, "x", 1⟩⟩
      ⟨⟨"x = 1; \x7d".toList, 8, 1⟩, ⟨TOKEN_RBRACE, "\x7d", 1⟩⟩
      [NODE_ASSIGN "x" (NODE_NUMBER "1")] (by decide!)).2.1 (by decide)⟩

/-! ## The `int` keyword -/

theorem Result.rel_bind {ε α β γ δ : Type} {R : α → β → Prop} {S : γ → δ → Prop}
    {x : Result ε α} {y : Result ε β} {f : α → Result ε γ} {g : β → Result ε δ}
    (hx : Result.rel R x y) (hf : ∀ a b, R a b → Result.rel S (f a) (g b)) :
    Result.rel S (x.bind f) (y.bind g) := by
  cases x <;> cases y <;> simp only [Result.rel] at hx
  · exact hf _ _ hx
  · exact hx
  · trivial

theorem Result.rel_ite {ε α β : Type} {R : α → β → Prop} {c : Prop} [Decidable c]
    {x u : Result ε α} {y v : Result ε β}
    (h1 : c → Result.rel R x y) (h2 : ¬c → Result.rel R u v) :
    Result.rel R (if c then x else u) (if c then y else v) := by
  split
  · exact h1 ‹_›
  · exact h2 ‹_›

theorem drop_consumed (lx : Lexer) (n : Nat) :
    lx.source_code.drop (lx.current_pos + lx.blank.length + n) = lx.body.drop n := by
  rw [← drop_skipped lx, List.drop_drop]

/-- The next token depends on the input after the white space and on the line there. -/
theorem get_next_token_rel {a b : Lexer} (hb : a.body = b.body)
    (hl : a.skipped.current_line = b.skipped.current_line) :
    Result.rel (fun x y => x.1 = y.1 ∧ Lexer.sim x.2 y.2)
      (get_next_token a) (get_next_token b) := by
  rw [get_next_token_eq a, get_next_token_eq b, hb, hl]
  cases token_at b.body b.skipped.current_line with
  | ret r =>
    have key : a.source_code.drop (a.current_pos + a.blank.length + r.2) =
        b.source_code.drop (b.current_pos + b.blank.length + r.2) := by
      rw [drop_consumed, drop_consumed, hb]
    exact ⟨rfl, key, rfl⟩
  | fail e => simp [Result.bind, Result.rel]
  | div => simp [Result.bind, Result.rel]

theorem Lexer.sim_weak {a b : Lexer} (h : Lexer.sim a b) :
    a.body = b.body ∧ a.skipped.current_line = b.skipped.current_line := by
  obtain ⟨h1, h2⟩ := h
  simp only [Lexer.body, Lexer.skipped, Lexer.blank, h1, h2, and_self]

theorem next_token_rel {p q : Parser} (h : Parser.sim p q) :
    Result.rel Parser.sim (next_token p) (next_token q) := by
  unfold next_token
  obtain ⟨hb, hl⟩ := Lexer.sim_weak h.2
  exact Result.rel_bind (get_next_token_rel hb hl) (fun x y hxy => ⟨hxy.1, hxy.2⟩)

theorem expect_token_rel (expected : TokenType) {p q : Parser} (h : Parser.sim p q) :
    Result.rel Parser.sim (expect_token expected p) (expect_token expected q) := by
  unfold expect_token
  rw [h.1]
  exact Result.rel_ite (fun _ => rfl) (fun _ => next_token_rel h)

/-- The expression parser returns the same tree and stops with the same fault from parser
states that agree. -/
theorem parse_expression_rel (k : Nat) :
    (∀ p q, Parser.sim p q → Result.rel PairSim (parse_factor k p) (parse_factor k q)) ∧
    (∀ p q, Parser.sim p q → Result.rel PairSim (parse_term k p) (parse_term k q)) ∧
    (∀ n p q, Parser.sim p q →
      Result.rel PairSim (parse_term_loop k n p) (parse_term_loop k n q)) ∧
    (∀ p q, Parser.sim p q →
      Result.rel PairSim (parse_expression k p) (parse_expression k q)) ∧
    (∀ n p q, Parser.sim p q →
      Result.rel PairSim (parse_expression_loop k n p) (parse_expression_loop k n q)) := by
  induction k with
  | zero => refine ⟨?_, ?_, ?_, ?_, ?_⟩ <;> intros <;> exact trivial
  | succ k ih =>
    obtain ⟨hf, ht, htl, he, hel⟩ := ih
    refine ⟨?_, ?_, ?_, ?_, ?_⟩
    · intro p q h
      unfold parse_factor
      rw [h.1, h.2.2]
      refine Result.rel_ite (fun _ => ?_) (fun _ => Result.rel_ite (fun _ => ?_) (fun _ =>
        Result.rel_ite (fun _ => ?_) (fun _ => rfl)))
      · exact Result.rel_bind (next_token_rel h) (fun a b hab => ⟨rfl, hab⟩)
      · exact Result.rel_bind (next_token_rel h) (fun a b hab => ⟨rfl, hab⟩)
      · refine Result.rel_bind (next_token_rel h) (fun a b hab => ?_)
        refine Result.rel_bind (he a b hab) (fun r s hrs => ?_)
        refine Result.rel_bind (expect_token_rel _ hrs.2) (fun c d hcd => ?_)
        exact ⟨hrs.1, hcd⟩
    · intro p q h
      unfold parse_term
      exact Result.rel_bind (hf p q h) (fun r s hrs => by rw [hrs.1]; exact htl _ _ _ hrs.2)
    · intro n p q h
      unfold parse_term_loop
      rw [h.1]
      refine Result.rel_ite (fun _ => ?_) (fun _ => ⟨rfl, h⟩)
      refine Result.rel_bind (next_token_rel h) (fun a b hab => ?_)
      refine Result.rel_bind (hf a b hab) (fun r s hrs => ?_)
      rw [hrs.1]
      exact htl _ _ _ hrs.2
    · intro p q h
      unfold parse_expression
      exact Result.rel_bind (ht p q h) (fun r s hrs => by rw [hrs.1]; exact hel _ _ _ hrs.2)
    · intro n p q h
      unfold parse_expression_loop
      rw [h.1]
      refine Result.rel_ite (fun _ => ?_) (fun _ => ⟨rfl, h⟩)
      refine Result.rel_bind (next_token_rel h) (fun a b hab => ?_)
      refine Result.rel_bind (ht a b hab) (fun r s hrs => ?_)
      rw [hrs.1]
      exact hel _ _ _ hrs.2

theorem parse_assignment_rel (k : Nat) {p q : Parser} (h : Parser.sim p q) :
    Result.rel PairSim (parse_assignment k p) (parse_assignment k q) := by
  unfold parse_assignment
  rw [h.1]
  refine Result.rel_bind (next_token_rel h) (fun a b hab => ?_)
  refine Result.rel_bind (expect_token_rel _ hab) (fun c d hcd => ?_)
  refine Result.rel_bind ((parse_expression_rel k).2.2.2.1 c d hcd) (fun r s hrs => ?_)
  refine Result.rel_bind (expect_token_rel _ hrs.2) (fun e f hef => ?_)
  exact ⟨by rw [hrs.1], hef⟩

theorem parse_assignment_node {k : Nat} {p q : Parser} {node : ASTNode}
    (h : parse_assignment k p = .ret (node, q)) :
    ∃ e, node = NODE_ASSIGN p.current_token.value e := by
  unfold parse_assignment at h
  obtain ⟨p1, _, h1⟩ := Result.bind_eq_ret h
  obtain ⟨p2, _, h2⟩ := Result.bind_eq_ret h1
  obtain ⟨r, _, h3⟩ := Result.bind_eq_ret h2
  obtain ⟨p3, _, h4⟩ := Result.bind_eq_ret h3
  cases h4
  exact ⟨r.1, rfl⟩

theorem lex_int_keyword (rest : List Char) :
    parser_init (lexer_init ("int ".toList ++ rest)) =
      .ret ⟨⟨"int ".toList ++ rest, 3, 1⟩, ⟨TOKEN_INT, "int", 1⟩⟩ := by
  have hb : (⟨"int ".toList ++ rest, 0, 1⟩ : Lexer).body = 'i' :: ("nt ".toList ++ rest) := by
    simp [Lexer.body, Lexer.rest, isspace]
  have hblank : (⟨"int ".toList ++ rest, 0, 1⟩ : Lexer).blank = [] := by
    simp [Lexer.blank, Lexer.rest, isspace]
  have hrun : List.takeWhile (fun d => isalnum d || decide (d = '_'))
      ('i' :: ("nt ".toList ++ rest)) = ['i', 'n', 't'] := by
    have h1 : (isalnum 'i' || decide ('i' = '_')) = true := by decide
    have h2 : (isalnum 'n' || decide ('n' = '_')) = true := by decide
    have h3 : (isalnum 't' || decide ('t' = '_')) = true := by decide
    have h4 : (isalnum ' ' || decide (' ' = '_')) = false := by decide
    show List.takeWhile _ ('i' :: 'n' :: 't' :: ' ' :: rest) = _
    rw [List.takeWhile_cons, h1, List.takeWhile_cons, h2, List.takeWhile_cons, h3,
      List.takeWhile_cons, h4]
    rfl
  have hk : keyword_type (String.mk ['i', 'n', 't']) = TOKEN_INT := by decide
  have hv : String.mk ['i', 'n', 't'] = "int" := by decide
  unfold parser_init lexer_init
  rw [get_next_token_eq, hb]
  unfold token_at
  have hd : isdigit 'i' = false := by decide
  have ha : (isalpha 'i' || decide ('i' = '_')) = true := by decide
  simp only [hd, ha, if_true, Bool.false_eq_true, if_false, hrun]
  rw [if_neg (by decide)]
  simp only [Lexer.skipped, hblank, Result.bind, hk, hv]
  rfl

/-- C15: for every text `rest` that starts with an identifier, `parse_statement` on
`int ` followed by `rest` and `parse_statement` on `rest` have the same outcome: both
return the same node, an Assign of that identifier, and leave parser states with the same
current token, the same input ahead and the same line counter; or both stop with the same
fault. -/
theorem int_keyword_leaves_no_trace (rest : List Char) (p : Parser) (k : Nat)
    (hp : parser_init (lexer_init rest) = .ret p)
    (hid : p.current_token.type = TOKEN_IDENTIFIER) :
    ∃ q, parser_init (lexer_init ("int ".toList ++ rest)) = .ret q ∧
      q.current_token = ⟨TOKEN_INT, "int", 1⟩ ∧
      Result.rel PairSim (parse_statement (k + 1) q) (parse_statement (k + 1) p) ∧
      (∀ node q1, parse_statement (k + 1) q = .ret (node, q1) →
        ∃ e, node = NODE_ASSIGN p.current_token.value e) ∧
      (∀ node p1, parse_statement (k + 1) p = .ret (node, p1) →
        ∃ e, node = NODE_ASSIGN p.current_token.value e) := by
  refine ⟨_, lex_int_keyword rest, rfl, ?_⟩
  -- the token after `int` is the first token of `rest`
  have hb : (⟨"int ".toList ++ rest, 3, 1⟩ : Lexer).body = (lexer_init rest).body := by
    simp [Lexer.body, Lexer.rest, lexer_init, isspace]
  have hl : (⟨"int ".toList ++ rest, 3, 1⟩ : Lexer).skipped.current_line =
      (lexer_init rest).skipped.current_line := by
    simp [Lexer.skipped, Lexer.blank, Lexer.rest, lexer_init, isspace, List.count_cons]
  have hnext : Result.rel Parser.sim
      (next_token ⟨⟨"int ".toList ++ rest, 3, 1⟩, ⟨TOKEN_INT, "int", 1⟩⟩)
      (parser_init (lexer_init rest)) := by
    unfold next_token parser_init
    exact Result.rel_bind (get_next_token_rel hb hl) (fun x y hxy => ⟨hxy.1, hxy.2⟩)
  rw [hp] at hnext
  cases hn : next_token ⟨⟨"int ".toList ++ rest, 3, 1⟩, ⟨TOKEN_INT, "int", 1⟩⟩ with
  | fail e => rw [hn] at hnext; exact absurd hnext (by simp [Result.rel])
  | div => rw [hn] at hnext; exact absurd hnext (by simp [Result.rel])
  | ret p1 =>
    rw [hn] at hnext
    have hsim : Parser.sim p1 p := hnext
    have hid1 : p1.current_token.type = TOKEN_IDENTIFIER := by rw [hsim.1]; exact hid
    have hq : parse_statement (k + 1) ⟨⟨"int ".toList ++ rest, 3, 1⟩, ⟨TOKEN_INT, "int", 1⟩⟩
        = parse_assignment k p1 := by
      rw [parse_statement, if_pos rfl, hn]
      simp only [Result.bind]
      rw [if_neg (by simp [hid1])]
    have hpp : parse_statement (k + 1) p = parse_assignment k p := by
      rw [parse_statement]
      simp [hid]
    rw [hq, hpp]
    refine ⟨parse_assignment_rel k hsim, ?_, ?_⟩
    · intro node q1 h
      rw [← hsim.1]
      exact parse_assignment_node h
    · intro node q1 h
      exact parse_assignment_node h

theorem int_keyword_leaves_no_trace_witness :
    parser_init (lexer_init "x = 1;".toList)
      = .ret ⟨⟨"x = 1;".toList, 1, 1⟩, ⟨TOKEN_IDENTIFIER, "x", 1⟩⟩ ∧
    ∃ q, parser_init (lexer_init ("int ".toList ++ "x = 1;".toList)) = .ret q ∧
      q.current_token = ⟨TOKEN_INT, "int", 1⟩ ∧
      Result.rel PairSim (parse_statement 6 q)
        (parse_statement 6 ⟨⟨"x = 1;".toList, 1, 1⟩, ⟨TOKEN_IDENTIFIER, "x", 1⟩⟩) :=
  ⟨by decide!,
   (int_keyword_leaves_no_trace "x = 1;".toList
      ⟨⟨"x = 1;".toList, 1, 1⟩, ⟨TOKEN_IDENTIFIER, "x", 1⟩⟩ 5 (by decide!) rfl).imp
     fun _ h => ⟨h.1, h.2.1, h.2.2.1⟩⟩

/-! ## Round trip of expressions -/

theorem isspace_toNat {c : Char} (h : isspace c = true) : c.toNat ≤ 32 := by
  simp only [isspace, Bool.or_eq_true, decide_eq_true_eq] at h
  rcases h with ((((h | h) | h) | h) | h) | h <;> subst h <;> decide

theorem isspace_of_isdigit {c : Char} (h : isdigit c = true) : isspace c = false := by
  cases hs : isspace c with
  | false => rfl
  | true =>
    have h1 := isspace_toNat hs
    simp only [isdigit, Bool.and_eq_true, decide_eq_true_eq] at h
    have h5 : ('0' : Char).toNat = 48 := by decide
    rw [h5] at h
    omega

theorem isspace_of_isalpha {c : Char} (h : isalpha c = true ∨ c = '_') : isspace c = false := by
  cases hs : isspace c with
  | false => rfl
  | true =>
    have h1 := isspace_toNat hs
    rcases h with h | h
    · simp only [isalpha, Bool.or_eq_true, Bool.and_eq_true, decide_eq_true_eq] at h
      have h3 : ('a' : Char).toNat = 97 := by decide
      have h4 : ('A' : Char).toNat = 65 := by decide
      rw [h3, h4] at h
      omega
    · subst h
      exact absurd hs (by decide)

/-- Reading a token at a cursor that stands on a character that is no white space. -/
theorem parser_init_at {src : List Char} {pos : Nat} (line : Nat) {c : Char} {cs : List Char}
    (h : src.drop pos = c :: cs) (hc : isspace c = false) :
    parser_init ⟨src, pos, line⟩ =
      (token_at (c :: cs) line).bind fun r => .ret ⟨⟨src, pos + r.2, line⟩, r.1⟩ := by
  have hblank : (⟨src, pos, line⟩ : Lexer).blank = [] := by
    simp [Lexer.blank, Lexer.rest, h, hc]
  have hbody : (⟨src, pos, line⟩ : Lexer).body = c :: cs := by
    simp [Lexer.body, Lexer.rest, h, hc]
  unfold parser_init
  rw [get_next_token_eq, hbody]
  simp only [Lexer.skipped, hblank, List.length_nil, List.count_nil, Nat.add_zero]
  cases token_at (c :: cs) line <;> rfl

/-- A space at the cursor is skipped. -/
theorem parser_init_space {src : List Char} {pos : Nat} (line : Nat) {t : List Char}
    (h : src.drop pos = ' ' :: t) :
    parser_init ⟨src, pos, line⟩ = parser_init ⟨src, pos + 1, line⟩ := by
  have h1 : src.drop (pos + 1) = t := by
    have := congrArg (List.drop 1) h
    rw [List.drop_drop] at this
    simpa [Nat.add_comm] using this
  have hs : isspace ' ' = true := by decide
  unfold parser_init
  rw [get_next_token_eq, get_next_token_eq]
  have hb : (⟨src, pos, line⟩ : Lexer).body = (⟨src, pos + 1, line⟩ : Lexer).body := by
    simp [Lexer.body, Lexer.rest, h, h1, hs]
  have hbl : (⟨src, pos, line⟩ : Lexer).blank = ' ' :: (⟨src, pos + 1, line⟩ : Lexer).blank := by
    simp [Lexer.blank, Lexer.rest, h, h1, hs]
  rw [hb]
  simp only [Lexer.skipped, hbl, List.length_cons]
  have hcount : List.count '\n' (' ' :: (⟨src, pos + 1, line⟩ : Lexer).blank) =
      List.count '\n' (⟨src, pos + 1, line⟩ : Lexer).blank := by
    rw [List.count_cons]
    simp
  rw [hcount]
  have hpos : pos + ((⟨src, pos + 1, line⟩ : Lexer).blank.length + 1) =
      pos + 1 + (⟨src, pos + 1, line⟩ : Lexer).blank.length := by omega
  rw [hpos]

theorem takeWhile_append_of_all {p : Char → Bool} {a b : List Char}
    (ha : ∀ x ∈ a, p x = true) (hb : ∀ c, b.head? = some c → p c = false) :
    List.takeWhile p (a ++ b) = a := by
  induction a with
  | nil =>
    cases b with
    | nil => rfl
    | cons c cs =>
      have := hb c rfl
      simp [List.takeWhile_cons, this]
  | cons x xs ih =>
    have hx := ha x (List.mem_cons_self x xs)
    simp only [List.cons_append, List.takeWhile_cons, hx, if_true]
    rw [ih (fun y hy => ha y (List.mem_cons_of_mem x hy))]

theorem token_at_lparen (t : List Char) (line : Nat) :
    token_at ('(' :: t) line = .ret (⟨TOKEN_LPAREN, "(", line⟩, 1) := by
  have hd : isdigit '(' = false := by decide
  have ha : (isalpha '(' || decide ('(' = '_')) = false := by decide
  have hs : ∀ next, single_character_token '(' next = some (TOKEN_LPAREN, "(", 0) := by
    intro next; rfl
  unfold token_at
  simp only [hd, ha, Bool.false_eq_true, if_false, hs]

theorem token_at_rparen (t : List Char) (line : Nat) :
    token_at (')' :: t) line = .ret (⟨TOKEN_RPAREN, ")", line⟩, 1) := by
  have hd : isdigit ')' = false := by decide
  have ha : (isalpha ')' || decide (')' = '_')) = false := by decide
  have hs : ∀ next, single_character_token ')' next = some (TOKEN_RPAREN, ")", 0) := by
    intro next; rfl
  unfold token_at
  simp only [hd, ha, Bool.false_eq_true, if_false, hs]

/-- The lexer reads an operator text followed by a space as the operator token. -/
theorem token_at_operator {op : String} (hop : is_operator op = true) (t : List Char)
    (line : Nat) :
    token_at (op.data ++ ' ' :: t) line =
      .ret (⟨operator_type op, op, line⟩, op.data.length) := by
  simp only [is_operator, Bool.or_eq_true, decide_eq_true_eq] at hop
  rcases hop with (((((h | h) | h) | h) | h) | h) | h <;> subst h
  · show token_at ('+' :: ' ' :: t) line = _
    have hd : isdigit '+' = false := by decide
    have ha : (isalpha '+' || decide ('+' = '_')) = false := by decide
    unfold token_at
    simp only [hd, ha, Bool.false_eq_true, if_false, List.head?_cons]
    rfl
  · show token_at ('-' :: ' ' :: t) line = _
    have hd : isdigit '-' = false := by decide
    have ha : (isalpha '-' || decide ('-' = '_')) = false := by decide
    unfold token_at
    simp only [hd, ha, Bool.false_eq_true, if_false, List.head?_cons]
    rfl
  · show token_at ('*' :: ' ' :: t) line = _
    have hd : isdigit '*' = false := by decide
    have ha : (isalpha '*' || decide ('*' = '_')) = false := by decide
    unfold token_at
    simp only [hd, ha, Bool.false_eq_true, if_false, List.head?_cons]
    rfl
  · show token_at ('/' :: ' ' :: t) line = _
    have hd : isdigit '/' = false := by decide
    have ha : (isalpha '/' || decide ('/' = '_')) = false := by decide
    unfold token_at
    simp only [hd, ha, Bool.false_eq_true, if_false, List.head?_cons]
    rfl
  · show token_at ('=' :: '=' :: ' ' :: t) line = _
    have hd : isdigit '=' = false := by decide
    have ha : (isalpha '=' || decide ('=' = '_')) = false := by decide
    unfold token_at
    simp only [hd, ha, Bool.false_eq_true, if_false, List.head?_cons]
    rfl
  · show token_at ('<' :: ' ' :: t) line = _
    have hd : isdigit '<' = false := by decide
    have ha : (isalpha '<' || decide ('<' = '_')) = false := by decide
    unfold token_at
    simp only [hd, ha, Bool.false_eq_true, if_false, List.head?_cons]
    rfl
  · show token_at ('>' :: ' ' :: t) line = _
    have hd : isdigit '>' = false := by decide
    have ha : (isalpha '>' || decide ('>' = '_')) = false := by decide
    unfold token_at
    simp only [hd, ha, Bool.false_eq_true, if_false, List.head?_cons]
    rfl

theorem operator_first_char {op : String} (hop : is_operator op = true) :
    ∃ c cs, op.data = c :: cs ∧ isspace c = false := by
  simp only [is_operator, Bool.or_eq_true, decide_eq_true_eq] at hop
  rcases hop with (((((h | h) | h) | h) | h) | h) | h <;> subst h <;>
    exact ⟨_, _, rfl, by decide⟩

theorem operator_kind {op : String} (hop : is_operator op = true) :
    (is_term_operator (operator_type op) = true ∧
      is_expression_operator (operator_type op) = false) ∨
    (is_term_operator (operator_type op) = false ∧
      is_expression_operator (operator_type op) = true) := by
  simp only [is_operator, Bool.or_eq_true, decide_eq_true_eq] at hop
  rcases hop with (((((h | h) | h) | h) | h) | h) | h <;> subst h <;> decide

theorem ends_lexeme_digit {rest : List Char} (h : ends_lexeme rest) :
    ∀ c, rest.head? = some c → isdigit c = false := by
  intro c hc
  have := h c hc
  simp only [isalnum, Bool.or_eq_false_iff] at this
  exact this.1.2

/-- The lexer reads a number text back as one NUMBER token. -/
theorem token_at_number {v : String} (hv : is_number_text v = true) {rest : List Char}
    (hr : ends_lexeme rest) (line : Nat) :
    ∃ c cs, v.data = c :: cs ∧ isspace c = false ∧
      token_at (v.data ++ rest) line = .ret (⟨TOKEN_NUMBER, v, line⟩, v.data.length) := by
  simp only [is_number_text, Bool.and_eq_true, Bool.not_eq_true', decide_eq_true_eq] at hv
  obtain ⟨⟨hne, hall⟩, hlen⟩ := hv
  rw [List.all_eq_true] at hall
  cases hd : v.data with
  | nil => rw [hd] at hne; simp at hne
  | cons c cs =>
    have hc : isdigit c = true := hall c (by rw [hd]; exact List.mem_cons_self c cs)
    refine ⟨c, cs, rfl, isspace_of_isdigit hc, ?_⟩
    have hrun : List.takeWhile isdigit (c :: (cs ++ rest)) = c :: cs := by
      have := takeWhile_append_of_all (p := isdigit) (a := c :: cs) (b := rest)
        (fun x hx => hall x (by rw [hd]; exact hx)) (ends_lexeme_digit hr)
      simpa using this
    show token_at (c :: (cs ++ rest)) line = _
    unfold token_at
    simp only [hc, if_true, hrun]
    rw [hd] at hlen
    rw [if_neg (by omega)]
    have hs : String.mk (c :: cs) = v := by rw [← hd]
    rw [hs]

/-- The lexer reads an identifier text back as one IDENTIFIER token. -/
theorem token_at_identifier {v : String} (hv : is_identifier_text v = true)
    {rest : List Char} (hr : ends_lexeme rest) (line : Nat) :
    ∃ c cs, v.data = c :: cs ∧ isspace c = false ∧
      token_at (v.data ++ rest) line = .ret (⟨TOKEN_IDENTIFIER, v, line⟩, v.data.length) := by
  simp only [is_identifier_text, Bool.and_eq_true, decide_eq_true_eq] at hv
  obtain ⟨⟨hshape, hkey⟩, hlen⟩ := hv
  cases hd : v.data with
  | nil => rw [hd] at hshape; simp at hshape
  | cons c cs =>
    rw [hd] at hshape
    simp only [Bool.and_eq_true, Bool.or_eq_true, decide_eq_true_eq] at hshape
    obtain ⟨hc, hcs⟩ := hshape
    rw [List.all_eq_true] at hcs
    have hfirst : (isalnum c || decide (c = '_')) = true := by
      rcases hc with h | h
      · simp [isalnum, h]
      · simp [h]
    refine ⟨c, cs, rfl, isspace_of_isalpha hc, ?_⟩
    have hrun : List.takeWhile (fun d => isalnum d || decide (d = '_')) (c :: (cs ++ rest))
        = c :: cs := by
      have := takeWhile_append_of_all (p := fun d => isalnum d || decide (d = '_'))
        (a := c :: cs) (b := rest)
        (fun x hx => by
          rcases List.mem_cons.mp hx with h | h
          · rw [h]; exact hfirst
          · exact hcs x h)
        hr
      simpa using this
    have hdig : isdigit c = false := isdigit_of_isalpha hc
    have halpha : (isalpha c || decide (c = '_')) = true := by
      rcases hc with h | h
      · simp [h]
      · simp [h]
    show token_at (c :: (cs ++ rest)) line = _
    unfold token_at
    simp only [hdig, halpha, Bool.false_eq_true, if_false, if_true, hrun]
    rw [hd] at hlen
    rw [if_neg (by omega)]
    have hs : String.mk (c :: cs) = v := by rw [← hd]
    rw [hs, hkey]

theorem drop_after {src a b : List Char} {pos : Nat} (h : src.drop pos = a ++ b) :
    src.drop (pos + a.length) = b := by
  have := congrArg (List.drop a.length) h
  rw [List.drop_drop, List.drop_left] at this
  simpa [Nat.add_comm] using this

theorem generate_code_binary_data (op : String) (l r : ASTNode) :
    (generate_code (NODE_BINARY_OP op l r)).data =
      '(' :: ((generate_code l).data ++ ' ' :: (op.data ++ ' ' ::
        ((generate_code r).data ++ [')']))) := by
  rw [generate_code]
  simp [String.data_append]

theorem ends_lexeme_space (t : List Char) : ends_lexeme (' ' :: t) := by
  intro c hc
  simp only [List.head?_cons, Option.some.injEq] at hc
  subst hc
  decide

theorem ends_lexeme_rparen (t : List Char) : ends_lexeme (')' :: t) := by
  intro c hc
  simp only [List.head?_cons, Option.some.injEq] at hc
  subst hc
  decide

theorem next_token_eq_parser_init (p : Parser) : next_token p = parser_init p.lexer := rfl

/-- Reading back the text of a well-formed expression with `parse_factor`: the first token
is read, and `parse_factor` returns the expression with the parser on the token after
the text. -/
theorem parse_factor_text :
    ∀ e : ASTNode, well_formed_expression e = true →
      ∀ (src : List Char) (pos line : Nat) (rest : List Char),
        src.drop pos = (generate_code e).data ++ rest → ends_lexeme rest →
        ∃ p1, parser_init ⟨src, pos, line⟩ = .ret p1 ∧
          ∀ j, parse_factor (expression_fuel e + j) p1 =
            (parser_init ⟨src, pos + (generate_code e).data.length, line⟩).bind
              fun p => .ret (e, p)
  | .NODE_NUMBER v, hwf, src, pos, line, rest, h, hr => by
    simp only [well_formed_expression] at hwf
    rw [generate_code] at h ⊢
    obtain ⟨c, cs, hd, hsp, htok⟩ := token_at_number hwf hr line
    have h1 : src.drop pos = c :: (cs ++ rest) := by rw [h, hd]; rfl
    have hinit := parser_init_at line h1 hsp
    have htok1 : token_at (c :: (cs ++ rest)) line =
        .ret (⟨TOKEN_NUMBER, v, line⟩, v.data.length) := by
      rw [← htok, hd]; rfl
    rw [htok1] at hinit
    refine ⟨_, hinit, fun j => ?_⟩
    simp only [expression_fuel]
    rw [Nat.add_comm 1 j, parse_factor]
    simp only [if_true]
    rfl
  | .NODE_IDENTIFIER v, hwf, src, pos, line, rest, h, hr => by
    simp only [well_formed_expression] at hwf
    rw [generate_code] at h ⊢
    obtain ⟨c, cs, hd, hsp, htok⟩ := token_at_identifier hwf hr line
    have h1 : src.drop pos = c :: (cs ++ rest) := by rw [h, hd]; rfl
    have hinit := parser_init_at line h1 hsp
    have htok1 : token_at (c :: (cs ++ rest)) line =
        .ret (⟨TOKEN_IDENTIFIER, v, line⟩, v.data.length) := by
      rw [← htok, hd]; rfl
    rw [htok1] at hinit
    refine ⟨_, hinit, fun j => ?_⟩
    simp only [expression_fuel]
    rw [Nat.add_comm 1 j, parse_factor]
    rw [if_neg (by simp), if_pos rfl]
    rfl
  | .NODE_BINARY_OP op l r, hwf, src, pos, line, rest, h, hr => by
    simp only [well_formed_expression, Bool.and_eq_true] at hwf
    obtain ⟨⟨hop, hwl⟩, hwr⟩ := hwf
    rw [generate_code_binary_data] at h
    -- the opening parenthesis
    have h0 : src.drop pos = '(' :: ((generate_code l).data ++ (' ' :: (op.data ++ ' ' ::
        ((generate_code r).data ++ ')' :: rest)))) := by
      rw [h]; simp
    have hinit0 := parser_init_at line h0 (by decide)
    rw [token_at_lparen] at hinit0
    -- the left operand
    have h1 : src.drop (pos + 1) = (generate_code l).data ++ (' ' :: (op.data ++ ' ' ::
        ((generate_code r).data ++ ')' :: rest))) :=
      drop_after (a := ['(']) h0
    obtain ⟨p1, hinit1, hleft⟩ :=
      parse_factor_text l hwl src (pos + 1) line _ h1 (ends_lexeme_space _)
    -- the operator
    have h2 := drop_after h1
    have h2s := parser_init_space line h2
    have h3 : src.drop (pos + 1 + (generate_code l).data.length + 1) =
        op.data ++ ' ' :: ((generate_code r).data ++ ')' :: rest) :=
      drop_after (a := [' ']) h2
    obtain ⟨c, cs, hopd, hopc⟩ := operator_first_char hop
    have h3c : src.drop (pos + 1 + (generate_code l).data.length + 1) =
        c :: (cs ++ ' ' :: ((generate_code r).data ++ ')' :: rest)) := by
      rw [h3, hopd]; rfl
    have hinit2 := parser_init_at line h3c hopc
    have htok2 : token_at (c :: (cs ++ ' ' :: ((generate_code r).data ++ ')' :: rest))) line
        = .ret (⟨operator_type op, op, line⟩, op.data.length) := by
      rw [← token_at_operator hop, hopd]; rfl
    rw [htok2] at hinit2
    rw [← h2s] at hinit2
    -- the right operand
    have h4 := drop_after h3
    have h4s := parser_init_space line h4
    have h5 : src.drop (pos + 1 + (generate_code l).data.length + 1 + op.data.length + 1) =
        (generate_code r).data ++ ')' :: rest :=
      drop_after (a := [' ']) h4
    obtain ⟨p3, hinit3, hright⟩ :=
      parse_factor_text r hwr src _ line _ h5 (ends_lexeme_rparen _)
    rw [← h4s] at hinit3
    -- the closing parenthesis
    have h6 := drop_after h5
    have hinit4 := parser_init_at line h6 (by decide)
    rw [token_at_rparen] at hinit4
    simp only [Result.bind] at hinit0 hinit2 hinit4
    -- the two operands with the same fuel
    have hfl : expression_fuel l + (max (expression_fuel l) (expression_fuel r)
        - expression_fuel l) = max (expression_fuel l) (expression_fuel r) :=
      Nat.add_sub_cancel' (le_max_left _ _)
    have hfr : expression_fuel r + (max (expression_fuel l) (expression_fuel r)
        - expression_fuel r) = max (expression_fuel l) (expression_fuel r) :=
      Nat.add_sub_cancel' (le_max_right _ _)
    have hl := hleft (max (expression_fuel l) (expression_fuel r) - expression_fuel l)
    rw [hfl, hinit2] at hl
    simp only [Result.bind] at hl
    have hrr := hright (max (expression_fuel l) (expression_fuel r) - expression_fuel r)
    rw [hfr, hinit4] at hrr
    simp only [Result.bind] at hrr
    generalize hF : max (expression_fuel l) (expression_fuel r) = F at hl hrr
    -- the expression between the parentheses
    have hexp : ∀ j, parse_expression (F + 6 + j) p1 =
        .ret (NODE_BINARY_OP op l r,
          ⟨⟨src, pos + 1 + (generate_code l).data.length + 1 + op.data.length + 1 +
              (generate_code r).data.length + 1, line⟩, ⟨TOKEN_RPAREN, ")", line⟩⟩) := by
      intro j
      rcases operator_kind hop with ⟨hk1, hk2⟩ | ⟨hk1, hk2⟩
      · have hterm := parse_term_pair hl hk1 hinit3 hrr rfl
        have := parse_expression_chain (F + 3) _ _ _ _ [] hterm rfl rfl (1 + j)
        have e : F + 3 + ([] : List (String × ASTNode)).length + 2 + (1 + j) = F + 6 + j := by
          show F + 3 + 0 + 2 + (1 + j) = F + 6 + j
          omega
        rw [e] at this
        exact this
      · have hterm := parse_term_stable (parse_term_single hl hk1) (by simp) 1
        have hterm2 := parse_term_stable (parse_term_single hrr rfl) (by simp) 1
        have hn : next_token
            ⟨⟨src, pos + 1 + (generate_code l).data.length + 1 + op.data.length, line⟩,
              ⟨operator_type op, op, line⟩⟩ = .ret p3 := hinit3
        have hs : read_operands (F + 2 + 1)
            ⟨⟨src, pos + 1 + (generate_code l).data.length + 1 + op.data.length, line⟩,
              ⟨operator_type op, op, line⟩⟩ [(op, r)] =
            some ⟨⟨src, pos + 1 + (generate_code l).data.length + 1 + op.data.length + 1 +
              (generate_code r).data.length + 1, line⟩, ⟨TOKEN_RPAREN, ")", line⟩⟩ := by
          rw [read_operands, if_pos ⟨hk2, rfl⟩, hn]
          simp only [Result.bind, hterm2, if_true, read_operands]
        have := parse_expression_chain (F + 2 + 1) _ _ _ _ [(op, r)] hterm hs rfl j
        have e : F + 2 + 1 + [(op, r)].length + 2 + j = F + 6 + j := by
          show F + 2 + 1 + 1 + 2 + j = F + 6 + j
          omega
        rw [e] at this
        exact this
    refine ⟨_, hinit0, fun j => ?_⟩
    have efuel : expression_fuel (NODE_BINARY_OP op l r) + j = (F + 6 + j) + 1 := by
      simp only [expression_fuel, hF]; omega
    have hn0 : next_token ⟨⟨src, pos + 1, line⟩, ⟨TOKEN_LPAREN, "(", line⟩⟩ = .ret p1 := hinit1
    have hlen : pos + (generate_code (NODE_BINARY_OP op l r)).data.length =
        pos + 1 + (generate_code l).data.length + 1 + op.data.length + 1 +
          (generate_code r).data.length + 1 := by
      rw [generate_code_binary_data]
      simp only [List.length_cons, List.length_append, List.length_nil]
      omega
    rw [efuel, parse_factor, if_neg (by simp), if_neg (by simp), if_pos rfl, hn0, hlen]
    simp only [Result.bind, hexp]
    rw [expect_token, if_neg (by simp)]
    rfl

theorem parser_init_end (src : List Char) (line : Nat) :
    parser_init ⟨src, src.length, line⟩ =
      .ret ⟨⟨src, src.length, line⟩, ⟨TOKEN_EOF, "EOF", line⟩⟩ := by
  have hrest : (⟨src, src.length, line⟩ : Lexer).rest = [] := by
    simp [Lexer.rest]
  have hbody : (⟨src, src.length, line⟩ : Lexer).body = [] := by
    simp [Lexer.body, hrest]
  have hblank : (⟨src, src.length, line⟩ : Lexer).blank = [] := by
    simp [Lexer.blank, hrest]
  unfold parser_init
  rw [get_next_token_eof hbody]
  simp only [Result.bind, Lexer.skipped, hblank, List.length_nil, List.count_nil, Nat.add_zero]

/-- C19: expression round trip.  For every expression whose NumberLiteral texts are
non-empty digit strings, whose Identifier names are identifiers that are no keyword and
whose operators are among `+ - * / == < >`, all texts shorter than 100 characters: lexing
the text `generate_code` emits and running `parse_expression` on it returns, with enough
fuel, the same tree, and the current token afterwards is EOF, at the end of the text. -/
theorem expression_round_trip (e : ASTNode) (hwf : well_formed_expression e = true) :
    ∀ j, parse_expression_source (expression_fuel e + 4 + j) (generate_code e) =
      .ret (e, ⟨⟨(generate_code e).data, (generate_code e).data.length, 1⟩,
        ⟨TOKEN_EOF, "EOF", 1⟩⟩) := by
  intro j
  obtain ⟨p1, hinit, hfac⟩ := parse_factor_text e hwf (generate_code e).data 0 1 []
    (by simp) (fun c hc => by simp at hc)
  have h0 := hfac 0
  rw [Nat.zero_add, parser_init_end] at h0
  simp only [Result.bind, Nat.add_zero] at h0
  have hterm := parse_term_single h0 rfl
  have := parse_expression_chain (expression_fuel e + 2) _ _ _ _ [] hterm rfl rfl j
  have efuel : expression_fuel e + 2 + ([] : List (String × ASTNode)).length + 2 + j =
      expression_fuel e + 4 + j := by
    show expression_fuel e + 2 + 0 + 2 + j = expression_fuel e + 4 + j
    omega
  rw [efuel] at this
  unfold parse_expression_source
  have hinit1 : parser_init (lexer_init (generate_code e).toList) = .ret p1 := hinit
  rw [hinit1]
  exact this

theorem expression_round_trip_witness :
    well_formed_expression
      (NODE_BINARY_OP "*" (NODE_BINARY_OP "+" (NODE_NUMBER "1") (NODE_IDENTIFIER "x"))
        (NODE_NUMBER "2")) = true ∧
    generate_code
      (NODE_BINARY_OP "*" (NODE_BINARY_OP "+" (NODE_NUMBER "1") (NODE_IDENTIFIER "x"))
        (NODE_NUMBER "2")) = "((1 + x) * 2)" ∧
    parse_expression_source 19 "((1 + x) * 2)" =
      .ret (NODE_BINARY_OP "*" (NODE_BINARY_OP "+" (NODE_NUMBER "1") (NODE_IDENTIFIER "x"))
          (NODE_NUMBER "2"),
        ⟨⟨"((1 + x) * 2)".toList, 13, 1⟩, ⟨TOKEN_EOF, "EOF", 1⟩⟩) :=
  ⟨by decide!, by decide!,
   expression_round_trip
     (NODE_BINARY_OP "*" (NODE_BINARY_OP "+" (NODE_NUMBER "1") (NODE_IDENTIFIER "x"))
       (NODE_NUMBER "2")) (by decide!) 0⟩

/-! ## Parentheses of emitted expressions -/

theorem paren_free_mk {l : List Char} (h : ∀ c ∈ l, c ≠ '(' ∧ c ≠ ')') :
    paren_free (String.mk l) = true := by
  unfold paren_free
  rw [List.all_eq_true]
  intro c hc
  have := h c hc
  simp [this.1, this.2]

theorem single_character_token_clean {ch : Char} {next : Option Char} {ty : TokenType}
    {value : String} {extra : Nat} (h : single_character_token ch next = some (ty, value, extra)) :
    ty = TOKEN_LPAREN ∨ ty = TOKEN_RPAREN ∨ paren_free value = true := by
  unfold single_character_token at h
  by_cases h0 : ch = '+'
  · rw [if_pos h0] at h; cases h; exact Or.inr (Or.inr (by decide))
  rw [if_neg h0] at h
  by_cases h1 : ch = '-'
  · rw [if_pos h1] at h; cases h; exact Or.inr (Or.inr (by decide))
  rw [if_neg h1] at h
  by_cases h2 : ch = '*'
  · rw [if_pos h2] at h; cases h; exact Or.inr (Or.inr (by decide))
  rw [if_neg h2] at h
  by_cases h3 : ch = '/'
  · rw [if_pos h3] at h; cases h; exact Or.inr (Or.inr (by decide))
  rw [if_neg h3] at h
  by_cases h4 : ch = '='
  · rw [if_pos h4] at h
    by_cases hn : next = some '='
    · rw [if_pos hn] at h; cases h; exact Or.inr (Or.inr (by decide))
    · rw [if_neg hn] at h; cases h; exact Or.inr (Or.inr (by decide))
  rw [if_neg h4] at h
  by_cases h5 : ch = '<'
  · rw [if_pos h5] at h; cases h; exact Or.inr (Or.inr (by decide))
  rw [if_neg h5] at h
  by_cases h6 : ch = '>'
  · rw [if_pos h6] at h; cases h; exact Or.inr (Or.inr (by decide))
  rw [if_neg h6] at h
  by_cases h7 : ch = ';'
  · rw [if_pos h7] at h; cases h; exact Or.inr (Or.inr (by decide))
  rw [if_neg h7] at h
  by_cases h8 : ch = '('
  · rw [if_pos h8] at h; cases h; exact Or.inl rfl
  rw [if_neg h8] at h
  by_cases h9 : ch = ')'
  · rw [if_pos h9] at h; cases h; exact Or.inr (Or.inl rfl)
  rw [if_neg h9] at h
  by_cases h10 : ch = '\x7b'
  · rw [if_pos h10] at h; cases h; exact Or.inr (Or.inr (by decide))
  rw [if_neg h10] at h
  by_cases h11 : ch = '\x7d'
  · rw [if_pos h11] at h; cases h; exact Or.inr (Or.inr (by decide))
  rw [if_neg h11] at h
  cases h

theorem token_at_clean {body : List Char} {line : Nat} {t : Token} {n : Nat}
    (h : token_at body line = .ret (t, n)) : t.clean := by
  cases body with
  | nil =>
    simp only [token_at] at h
    cases h
    exact Or.inr (Or.inr (show paren_free "EOF" = true by decide))
  | cons c cs =>
    unfold token_at at h
    by_cases hd : isdigit c = true
    · simp only [hd, if_true] at h
      by_cases hv : VALUE_SIZE ≤ (List.takeWhile isdigit (c :: cs)).length
      · rw [if_pos hv] at h; cases h
      · rw [if_neg hv] at h
        cases h
        refine Or.inr (Or.inr (paren_free_mk fun x hx => ?_))
        have hx1 := List.mem_takeWhile_imp hx
        constructor <;> intro e <;> subst e <;> exact absurd hx1 (by decide)
    · simp only [hd] at h
      by_cases ha : (isalpha c || c = '_') = true
      · simp only [ha, if_true] at h
        by_cases hv : VALUE_SIZE ≤
            (List.takeWhile (fun d => isalnum d || d = '_') (c :: cs)).length
        · rw [if_pos hv] at h; cases h
        · rw [if_neg hv] at h
          cases h
          refine Or.inr (Or.inr (paren_free_mk fun x hx => ?_))
          have hx1 := List.mem_takeWhile_imp hx
          constructor <;> intro e <;> subst e <;> exact absurd hx1 (by decide)
      · simp only [ha] at h
        cases hs : single_character_token c cs.head? with
        | none => rw [hs] at h; cases h
        | some v =>
          obtain ⟨ty, value, extra⟩ := v
          rw [hs] at h
          cases h
          exact single_character_token_clean hs

/-- Every token the lexer returns is clean. -/
theorem get_next_token_clean {lx lx1 : Lexer} {t : Token}
    (h : get_next_token lx = .ret (t, lx1)) : t.clean := by
  obtain ⟨n, ht, _⟩ := get_next_token_ret h
  exact token_at_clean ht

theorem next_token_clean {p q : Parser} (h : next_token p = .ret q) : q.current_token.clean := by
  unfold next_token at h
  obtain ⟨r, hr, h1⟩ := Result.bind_eq_ret h
  cases h1
  exact get_next_token_clean (show get_next_token p.lexer = .ret (r.1, r.2) from hr)

theorem parser_init_clean {lx : Lexer} {q : Parser} (h : parser_init lx = .ret q) :
    q.current_token.clean := by
  unfold parser_init at h
  obtain ⟨r, hr, h1⟩ := Result.bind_eq_ret h
  cases h1
  exact get_next_token_clean (show get_next_token lx = .ret (r.1, r.2) from hr)

theorem expect_token_clean {expected : TokenType} {p q : Parser}
    (h : expect_token expected p = .ret q) : q.current_token.clean := by
  unfold expect_token at h
  split at h
  · cases h
  · exact next_token_clean h

theorem clean_value {t : Token} (h : t.clean) (h1 : t.type ≠ TOKEN_LPAREN)
    (h2 : t.type ≠ TOKEN_RPAREN) : paren_free t.value = true := by
  rcases h with h | h | h
  · exact absurd h h1
  · exact absurd h h2
  · exact h

theorem plain_binary {op : String} {l r : ASTNode} (hop : paren_free op = true)
    (hl : plain_expression l = true) (hr : plain_expression r = true) :
    plain_expression (NODE_BINARY_OP op l r) = true := by
  simp only [plain_expression, Bool.and_eq_true] at hl hr ⊢
  simp only [is_expression, texts_paren_free, Bool.and_eq_true]
  exact ⟨⟨hl.1, hr.1⟩, ⟨hop, hl.2⟩, hr.2⟩

theorem term_operator_value {t : Token} (h : t.clean) (ht : is_term_operator t.type = true) :
    paren_free t.value = true := by
  refine clean_value h ?_ ?_ <;> intro e <;> rw [e] at ht <;> exact absurd ht (by decide)

theorem expression_operator_value {t : Token} (h : t.clean)
    (ht : is_expression_operator t.type = true) : paren_free t.value = true := by
  refine clean_value h ?_ ?_ <;> intro e <;> rw [e] at ht <;> exact absurd ht (by decide)

/-- Every tree the expression parser returns is an expression without a parenthesis among
its stored texts, when the current token came from the lexer. -/
theorem parse_expression_plain (k : Nat) :
    (∀ p e q, p.current_token.clean → parse_factor k p = .ret (e, q) →
      plain_expression e = true ∧ q.current_token.clean) ∧
    (∀ p e q, p.current_token.clean → parse_term k p = .ret (e, q) →
      plain_expression e = true ∧ q.current_token.clean) ∧
    (∀ n p e q, plain_expression n = true → p.current_token.clean →
      parse_term_loop k n p = .ret (e, q) →
      plain_expression e = true ∧ q.current_token.clean) ∧
    (∀ p e q, p.current_token.clean → parse_expression k p = .ret (e, q) →
      plain_expression e = true ∧ q.current_token.clean) ∧
    (∀ n p e q, plain_expression n = true → p.current_token.clean →
      parse_expression_loop k n p = .ret (e, q) →
      plain_expression e = true ∧ q.current_token.clean) := by
  induction k with
  | zero =>
    refine ⟨?_, ?_, ?_, ?_, ?_⟩
    · intro p e q _ h; cases h
    · intro p e q _ h; cases h
    · intro n p e q _ _ h; cases h
    · intro p e q _ h; cases h
    · intro n p e q _ _ h; cases h
  | succ k ih =>
    obtain ⟨hf, ht, htl, he, hel⟩ := ih
    refine ⟨?_, ?_, ?_, ?_, ?_⟩
    · intro p e q hc h
      rw [parse_factor] at h
      by_cases h1 : p.current_token.type = TOKEN_NUMBER
      · rw [if_pos h1] at h
        obtain ⟨p1, hn, h2⟩ := Result.bind_eq_ret h
        cases h2
        refine ⟨?_, next_token_clean hn⟩
        have := clean_value hc (by rw [h1]; decide) (by rw [h1]; decide)
        simpa [plain_expression, is_expression, texts_paren_free] using this
      rw [if_neg h1] at h
      by_cases h2 : p.current_token.type = TOKEN_IDENTIFIER
      · rw [if_pos h2] at h
        obtain ⟨p1, hn, h3⟩ := Result.bind_eq_ret h
        cases h3
        refine ⟨?_, next_token_clean hn⟩
        have := clean_value hc (by rw [h2]; decide) (by rw [h2]; decide)
        simpa [plain_expression, is_expression, texts_paren_free] using this
      rw [if_neg h2] at h
      by_cases h3 : p.current_token.type = TOKEN_LPAREN
      · rw [if_pos h3] at h
        obtain ⟨p1, hn, h4⟩ := Result.bind_eq_ret h
        obtain ⟨r, hr, h5⟩ := Result.bind_eq_ret h4
        obtain ⟨p2, hx, h6⟩ := Result.bind_eq_ret h5
        cases h6
        exact ⟨(he p1 r.1 r.2 (next_token_clean hn) hr).1, expect_token_clean hx⟩
      · rw [if_neg h3] at h
        cases h
    · intro p e q hc h
      rw [parse_term] at h
      obtain ⟨r, hr, h1⟩ := Result.bind_eq_ret h
      obtain ⟨a, b⟩ := hf p r.1 r.2 hc hr
      exact htl r.1 r.2 e q a b h1
    · intro n p e q hn hc h
      rw [parse_term_loop] at h
      by_cases h1 : is_term_operator p.current_token.type = true
      · rw [if_pos h1] at h
        obtain ⟨p1, hx, h2⟩ := Result.bind_eq_ret h
        obtain ⟨r, hr, h3⟩ := Result.bind_eq_ret h2
        obtain ⟨a, b⟩ := hf p1 r.1 r.2 (next_token_clean hx) hr
        exact htl _ r.2 e q (plain_binary (term_operator_value hc h1) hn a) b h3
      · rw [if_neg h1] at h
        cases h
        exact ⟨hn, hc⟩
    · intro p e q hc h
      rw [parse_expression] at h
      obtain ⟨r, hr, h1⟩ := Result.bind_eq_ret h
      obtain ⟨a, b⟩ := ht p r.1 r.2 hc hr
      exact hel r.1 r.2 e q a b h1
    · intro n p e q hn hc h
      rw [parse_expression_loop] at h
      by_cases h1 : is_expression_operator p.current_token.type = true
      · rw [if_pos h1] at h
        obtain ⟨p1, hx, h2⟩ := Result.bind_eq_ret h
        obtain ⟨r, hr, h3⟩ := Result.bind_eq_ret h2
        obtain ⟨a, b⟩ := ht p1 r.1 r.2 (next_token_clean hx) hr
        exact hel _ r.2 e q (plain_binary (expression_operator_value hc h1) hn a) b h3
      · rw [if_neg h1] at h
        cases h
        exact ⟨hn, hc⟩

theorem plain_binary_inv {op : String} {l r : ASTNode}
    (h : plain_expression (NODE_BINARY_OP op l r) = true) :
    plain_expression l = true ∧ plain_expression r = true := by
  simp only [plain_expression, is_expression, texts_paren_free, Bool.and_eq_true] at h ⊢
  exact ⟨⟨h.1.1, h.2.1.2⟩, ⟨h.1.2, h.2.2⟩⟩

theorem subexpressions_plain :
    ∀ e : ASTNode, plain_expression e = true → ∀ s ∈ subexpressions e, plain_expression s = true
  | .NODE_BINARY_OP op l r, h, s, hs => by
    simp only [subexpressions, List.mem_cons, List.mem_append] at hs
    obtain ⟨hl, hr⟩ := plain_binary_inv h
    rcases hs with hs | hs | hs
    · rw [hs]; exact h
    · exact subexpressions_plain l hl s hs
    · exact subexpressions_plain r hr s hs
  | .NULL, h, s, hs => by simp [plain_expression, is_expression] at h
  | .NODE_NUMBER v, h, s, hs => by
    simp only [subexpressions, List.mem_singleton] at hs; rw [hs]; exact h
  | .NODE_IDENTIFIER v, h, s, hs => by
    simp only [subexpressions, List.mem_singleton] at hs; rw [hs]; exact h
  | .NODE_ASSIGN _ _, h, s, hs => by simp [plain_expression, is_expression] at h
  | .NODE_PRINT _, h, s, hs => by simp [plain_expression, is_expression] at h
  | .NODE_IF _ _, h, s, hs => by simp [plain_expression, is_expression] at h
  | .NODE_WHILE _ _, h, s, hs => by simp [plain_expression, is_expression] at h
  | .NODE_BLOCK _, h, s, hs => by simp [plain_expression, is_expression] at h

theorem expressions_of_list_append (a b : List ASTNode) :
    expressions_of_list (a ++ b) = expressions_of_list a ++ expressions_of_list b := by
  induction a with
  | nil => simp [expressions_of_list]
  | cons x xs ih => simp [expressions_of_list, ih]

theorem store_statement_eq {acc acc1 : List ASTNode} {node : ASTNode}
    (h : store_statement acc node = .ret acc1) : acc1 = acc ++ [node] := by
  unfold store_statement at h
  split at h
  · cases h
  · cases h; rfl

theorem parse_assignment_plain {k : Nat} {p q : Parser} {node : ASTNode}
    (h : parse_assignment k p = .ret (node, q)) :
    (∀ e ∈ expressions_of node, plain_expression e = true) ∧ q.current_token.clean := by
  unfold parse_assignment at h
  obtain ⟨p1, h1, h⟩ := Result.bind_eq_ret h
  obtain ⟨p2, h2, h⟩ := Result.bind_eq_ret h
  obtain ⟨r, h3, h⟩ := Result.bind_eq_ret h
  obtain ⟨p3, h4, h⟩ := Result.bind_eq_ret h
  cases h
  obtain ⟨a, _⟩ := (parse_expression_plain k).2.2.2.1 p2 r.1 r.2 (expect_token_clean h2) h3
  refine ⟨fun e he => ?_, expect_token_clean h4⟩
  rw [expressions_of] at he
  exact subexpressions_plain r.1 a e he

/-- Every expression in a statement the parser returns is an expression without a
parenthesis among its stored texts. -/
theorem parse_statement_plain (k : Nat) :
    (∀ p node q, p.current_token.clean → parse_statement k p = .ret (node, q) →
      (∀ e ∈ expressions_of node, plain_expression e = true) ∧ q.current_token.clean) ∧
    (∀ acc p l q, (∀ e ∈ expressions_of_list acc, plain_expression e = true) →
      p.current_token.clean → parse_block_loop k acc p = .ret (l, q) →
      (∀ e ∈ expressions_of_list l, plain_expression e = true) ∧ q.current_token.clean) := by
  induction k with
  | zero =>
    refine ⟨?_, ?_⟩
    · intro p node q _ h; cases h
    · intro acc p l q _ _ h; cases h
  | succ k ih =>
    obtain ⟨hs, hb⟩ := ih
    have he := (parse_expression_plain k).2.2.2.1
    refine ⟨?_, ?_⟩
    · intro p node q hc h
      rw [parse_statement] at h
      by_cases h1 : p.current_token.type = TOKEN_INT
      · rw [if_pos h1] at h
        obtain ⟨p1, _, h⟩ := Result.bind_eq_ret h
        split at h
        · cases h
        · exact parse_assignment_plain h
      rw [if_neg h1] at h
      by_cases h2 : p.current_token.type = TOKEN_IDENTIFIER
      · rw [if_pos h2] at h
        exact parse_assignment_plain h
      rw [if_neg h2] at h
      by_cases h3 : p.current_token.type = TOKEN_PRINT
      · rw [if_pos h3] at h
        obtain ⟨p1, _, h⟩ := Result.bind_eq_ret h
        obtain ⟨p2, e2, h⟩ := Result.bind_eq_ret h
        obtain ⟨r, e3, h⟩ := Result.bind_eq_ret h
        obtain ⟨p3, _, h⟩ := Result.bind_eq_ret h
        obtain ⟨p4, e5, h⟩ := Result.bind_eq_ret h
        cases h
        obtain ⟨a, _⟩ := he p2 r.1 r.2 (expect_token_clean e2) e3
        refine ⟨fun e hm => ?_, expect_token_clean e5⟩
        rw [expressions_of] at hm
        exact subexpressions_plain r.1 a e hm
      rw [if_neg h3] at h
      by_cases h4 : p.current_token.type = TOKEN_IF
      · rw [if_pos h4] at h
        obtain ⟨p1, _, h⟩ := Result.bind_eq_ret h
        obtain ⟨p2, e2, h⟩ := Result.bind_eq_ret h
        obtain ⟨r, e3, h⟩ := Result.bind_eq_ret h
        obtain ⟨p3, _, h⟩ := Result.bind_eq_ret h
        obtain ⟨p4, e5, h⟩ := Result.bind_eq_ret h
        obtain ⟨b, e6, h⟩ := Result.bind_eq_ret h
        obtain ⟨p5, e7, h⟩ := Result.bind_eq_ret h
        cases h
        obtain ⟨a, _⟩ := he p2 r.1 r.2 (expect_token_clean e2) e3
        obtain ⟨c, _⟩ := hb [] p4 b.1 b.2 (by simp [expressions_of_list])
          (expect_token_clean e5) e6
        refine ⟨fun e hm => ?_, expect_token_clean e7⟩
        rw [expressions_of, expressions_of, List.mem_append] at hm
        rcases hm with hm | hm
        · exact subexpressions_plain r.1 a e hm
        · exact c e hm
      rw [if_neg h4] at h
      by_cases h5 : p.current_token.type = TOKEN_WHILE
      · rw [if_pos h5] at h
        obtain ⟨p1, _, h⟩ := Result.bind_eq_ret h
        obtain ⟨p2, e2, h⟩ := Result.bind_eq_ret h
        obtain ⟨r, e3, h⟩ := Result.bind_eq_ret h
        obtain ⟨p3, _, h⟩ := Result.bind_eq_ret h
        obtain ⟨p4, e5, h⟩ := Result.bind_eq_ret h
        obtain ⟨b, e6, h⟩ := Result.bind_eq_ret h
        obtain ⟨p5, e7, h⟩ := Result.bind_eq_ret h
        cases h
        obtain ⟨a, _⟩ := he p2 r.1 r.2 (expect_token_clean e2) e3
        obtain ⟨c, _⟩ := hb [] p4 b.1 b.2 (by simp [expressions_of_list])
          (expect_token_clean e5) e6
        refine ⟨fun e hm => ?_, expect_token_clean e7⟩
        rw [expressions_of, expressions_of, List.mem_append] at hm
        rcases hm with hm | hm
        · exact subexpressions_plain r.1 a e hm
        · exact c e hm
      · rw [if_neg h5] at h
        cases h
        exact ⟨fun e hm => by simp [expressions_of] at hm, hc⟩
    · intro acc p l q hacc hc h
      rw [parse_block_loop] at h
      by_cases h1 : p.current_token.type ≠ TOKEN_RBRACE
      · rw [if_pos h1] at h
        obtain ⟨r, e1, h⟩ := Result.bind_eq_ret h
        obtain ⟨acc1, e2, h⟩ := Result.bind_eq_ret h
        obtain ⟨a, b⟩ := hs p r.1 r.2 hc e1
        rw [store_statement_eq e2] at h
        refine hb _ r.2 l q (fun e hm => ?_) b h
        rw [expressions_of_list_append, List.mem_append] at hm
        rcases hm with hm | hm
        · exact hacc e hm
        · simp only [expressions_of_list, List.append_nil] at hm
          exact a e hm
      · rw [if_neg h1] at h
        cases h
        exact ⟨hacc, hc⟩

theorem parse_program_loop_plain (k : Nat) :
    ∀ acc p l q, (∀ e ∈ expressions_of_list acc, plain_expression e = true) →
      p.current_token.clean → parse_program_loop k acc p = .ret (l, q) →
      ∀ e ∈ expressions_of_list l, plain_expression e = true := by
  induction k with
  | zero => intro acc p l q _ _ h; cases h
  | succ k ih =>
    intro acc p l q hacc hc h
    rw [parse_program_loop] at h
    by_cases h1 : p.current_token.type ≠ TOKEN_EOF
    · rw [if_pos h1] at h
      by_cases h2 : p.current_token.type = TOKEN_NEWLINE
      · rw [if_pos h2] at h
        obtain ⟨p1, e1, h⟩ := Result.bind_eq_ret h
        exact ih acc p1 l q hacc (next_token_clean e1) h
      · rw [if_neg h2] at h
        obtain ⟨r, e1, h⟩ := Result.bind_eq_ret h
        obtain ⟨acc1, e2, h⟩ := Result.bind_eq_ret h
        obtain ⟨a, b⟩ := (parse_statement_plain k).1 p r.1 r.2 hc e1
        rw [store_statement_eq e2] at h
        refine ih _ r.2 l q (fun e hm => ?_) b h
        rw [expressions_of_list_append, List.mem_append] at hm
        rcases hm with hm | hm
        · exact hacc e hm
        · simp only [expressions_of_list, List.append_nil] at hm
          exact a e hm
    · rw [if_neg h1] at h
      cases h
      exact hacc

/-- Every expression of a program the parser returns is an expression without a
parenthesis among its stored texts. -/
theorem parse_source_plain {k : Nat} {code : String} {ast : ASTNode}
    (h : parse_source k code = .ret ast) :
    ∀ e ∈ expressions_of ast, plain_expression e = true := by
  unfold parse_source at h
  obtain ⟨p, e1, h⟩ := Result.bind_eq_ret h
  obtain ⟨r, e2, h⟩ := Result.bind_eq_ret h
  cases h
  unfold parse_program at e2
  obtain ⟨b, e3, e2⟩ := Result.bind_eq_ret e2
  cases e2
  intro e hm
  rw [expressions_of] at hm
  exact parse_program_loop_plain k [] p b.1 b.2 (by simp [expressions_of_list])
    (parser_init_clean e1) e3 e hm

theorem parse_expression_source_plain {k : Nat} {code : String} {e : ASTNode} {q : Parser}
    (h : parse_expression_source k code = .ret (e, q)) : plain_expression e = true := by
  unfold parse_expression_source at h
  obtain ⟨p, e1, h⟩ := Result.bind_eq_ret h
  exact ((parse_expression_plain k).2.2.2.1 p e q (parser_init_clean e1) h).1

/-- C18: the text of an expression is defined by the tree alone (a NumberLiteral or
Identifier is emitted verbatim, a BinaryOp as `(` left ` ` operator ` ` right `)`;
`generate_code` has no symbol table among its arguments).  Every expression of a program
the parser returns, that is every operand of an Assign, Print, If or While node and every
expression below it, is a tree of NumberLiteral, Identifier and BinaryOp nodes whose
emitted text has balanced parentheses with exactly one pair for each BinaryOp node; so
is every tree `parse_expression` returns from a source text, and every expression tree
whose stored texts hold no parenthesis. -/
theorem expression_text_balanced (code : String) (k : Nat) (ast e : ASTNode)
    (h : parse_source k code = .ret ast) (he : e ∈ expressions_of ast) :
    is_expression e = true ∧
    balanced (generate_code e) = true ∧
    (generate_code e).data.count '(' = binary_ops e ∧
    (generate_code e).data.count ')' = binary_ops e ∧
    (∀ v, generate_code (NODE_NUMBER v) = v) ∧
    (∀ v, generate_code (NODE_IDENTIFIER v) = v) ∧
    (∀ op l r, generate_code (NODE_BINARY_OP op l r)
      = "(" ++ generate_code l ++ " " ++ op ++ " " ++ generate_code r ++ ")") ∧
    (∀ (k2 : Nat) (code2 : String) (e2 : ASTNode) (q : Parser),
      parse_expression_source k2 code2 = .ret (e2, q) →
      is_expression e2 = true ∧ balanced (generate_code e2) = true ∧
      (generate_code e2).data.count '(' = binary_ops e2 ∧
      (generate_code e2).data.count ')' = binary_ops e2) ∧
    (∀ e3, is_expression e3 = true → texts_paren_free e3 = true →
      balanced (generate_code e3) = true ∧
      (generate_code e3).data.count '(' = binary_ops e3 ∧
      (generate_code e3).data.count ')' = binary_ops e3) := by
  have key : ∀ x, plain_expression x = true →
      is_expression x = true ∧ balanced (generate_code x) = true ∧
      (generate_code x).data.count '(' = binary_ops x ∧
      (generate_code x).data.count ')' = binary_ops x := by
    intro x hx
    simp only [plain_expression, Bool.and_eq_true] at hx
    obtain ⟨h1, h2, h3⟩ := generate_code_depth x hx.1 hx.2
    exact ⟨hx.1, by simp [balanced, h1], h2, h3⟩
  obtain ⟨a, b, c, d⟩ := key e (parse_source_plain h e he)
  refine ⟨a, b, c, d, ?_, ?_, ?_, ?_, ?_⟩
  · intro v; rw [generate_code]
  · intro v; rw [generate_code]
  · intro op l r; rw [generate_code]
  · intro k2 code2 e2 q h2
    exact key e2 (parse_expression_source_plain h2)
  · intro e3 h1 h2
    exact (key e3 (by simp [plain_expression, h1, h2])).2

theorem expression_text_balanced_witness :
    parse_source 9 "x = (1 + 2) * 3;" =
      .ret (NODE_BLOCK [NODE_ASSIGN "x" (NODE_BINARY_OP "*"
        (NODE_BINARY_OP "+" (NODE_NUMBER "1") (NODE_NUMBER "2")) (NODE_NUMBER "3"))]) ∧
    NODE_BINARY_OP "+" (NODE_NUMBER "1") (NODE_NUMBER "2") ∈
      expressions_of (NODE_BLOCK [NODE_ASSIGN "x" (NODE_BINARY_OP "*"
        (NODE_BINARY_OP "+" (NODE_NUMBER "1") (NODE_NUMBER "2")) (NODE_NUMBER "3"))]) ∧
    generate_code (NODE_BINARY_OP "+" (NODE_NUMBER "1") (NODE_NUMBER "2")) = "(1 + 2)" ∧
    balanced (generate_code (NODE_BINARY_OP "+" (NODE_NUMBER "1") (NODE_NUMBER "2"))) = true :=
  ⟨by decide!, by decide!, by decide!,
   (expression_text_balanced "x = (1 + 2) * 3;" 9
      (NODE_BLOCK [NODE_ASSIGN "x" (NODE_BINARY_OP "*"
        (NODE_BINARY_OP "+" (NODE_NUMBER "1") (NODE_NUMBER "2")) (NODE_NUMBER "3"))])
      (NODE_BINARY_OP "+" (NODE_NUMBER "1") (NODE_NUMBER "2"))
      (by decide!) (by decide!)).2.1⟩

end MiniC
